import Mathlib

/-!
# collectionmaker: batch-import benchmark and collection top-up

A shallow embedding of `cmd/write_batchimport.go` and of
`pkg/database/operations.go`, followed by the properties proved about them.

Conventions of the embedding

* Go `int64` values are Lean `Int`s; every arithmetic operation of the source
  is followed by `wrap64`, the two's-complement reduction to 64 bits.
* A counted loop `for i := a; i <= n; i++` is a recursion over the number of
  iterations it performs (`n - a + 1`, or none when that is negative), with the
  counter carried along.  This is exact as long as `n` is below the largest
  `int64`, so that the counter itself never wraps.
* What the program cannot decide itself is an explicit input: the answers of
  the store, the measured durations, the values returned by `rand.Int()` and
  the hash `fmt.Sprintf("%x", sha256.Sum256(..))`.
* A run-time panic (negative `make` length, index out of range) is a result of
  its own, `Result.panicked`.
* Every goroutine has its own event trace; the interleaving of the traces of
  different goroutines is not modelled.
* Memory is unbounded: no allocation fails for want of room.  Figures computed
  in floating point from the clock (documents per second) are left out.
-/

namespace CollectionMaker

/-! ## 64-bit signed arithmetic -/

/-- Two's-complement reduction of an integer to the `int64` range:
`(x + 2^63) mod 2^64 - 2^63`. -/
def wrap64 (x : Int) : Int :=
  (x + 9223372036854775808) % 18446744073709551616 - 9223372036854775808

/-- Go `a + b` on `int64`. -/
def add64 (a b : Int) : Int := wrap64 (a + b)

/-- Go `a - b` on `int64`. -/
def sub64 (a b : Int) : Int := wrap64 (a - b)

/-- Go `a * b` on `int64`. -/
def mul64 (a b : Int) : Int := wrap64 (a * b)

/-- Go `fmt.Sprintf("%d", x)`: decimal digits, with a leading `-` when negative. -/
def decimal : Int → String
  | Int.ofNat m => Nat.repr m
  | Int.negSucc m => "-" ++ Nat.repr (m + 1)

/-! ## Document generation (`writeSomeBatches`, lines 112-119) -/

/-- The integer printed into `x` at line 113:
`(id * nrBatches + i - 1) * batchSize + j`, all operations on `int64`. -/
def globalIndex (id nrBatches i batchSize j : Int) : Int :=
  add64 (mul64 (sub64 (add64 (mul64 id nrBatches) i) 1) batchSize) j

/-- The same expression over the unbounded integers. -/
def exactIndex (id nrBatches i batchSize j : Int) : Int :=
  (id * nrBatches + i - 1) * batchSize + j

/-- One document of the `batchimport` collection (`type Doc`). -/
structure Doc where
  /-- JSON field `_key`. -/
  Key : String
  /-- JSON field `sha`. -/
  Sha : String
  /-- JSON field `payload`, as its sequence of byte values. -/
  Payload : List Nat
deriving DecidableEq, Repr

/-- The values returned by the successive calls of `rand.Int()`. -/
abbrev Rand := Nat → Int

/-- The random source after `n` more values have been drawn. -/
def dropRand (r : Rand) (n : Nat) : Rand := fun k => r (k + n)

/-- Go conversion `byte(s)` of an integer: its low eight bits. -/
def toByte (s : Int) : Nat := (s % 256).toNat

/-- The byte stored by one iteration of `MakeRandomString` (lines 147-148):
`byte(rand.Int()%90 + 33)`, with Go's truncated remainder. -/
def randomByte (v : Int) : Nat := toByte (add64 (v.tmod 90) 33)

/-- The loop `for i := 0; i < length; i++` of `MakeRandomString`: the number of
iterations left, the counter `i`, and the byte slice `b`. -/
def fillBytes (r : Rand) : Nat → Nat → List Nat → List Nat
  | 0, _, b => b
  | n + 1, i, b => fillBytes r n (i + 1) (b.set i (randomByte (r i)))

/-- `MakeRandomString(length)`, with the random values it consumes; `none` is the
panic of `make([]byte, length, length)` on a negative length.  The second
component is the random source as it is left for later calls. -/
def MakeRandomString (length : Int) (r : Rand) : Option (List Nat × Rand) :=
  if length < 0 then none
  else some (fillBytes r length.toNat 0 (List.replicate length.toNat 0),
             dropRand r length.toNat)

/-- Lines 113-116: the two digests of one document, from the hash `H`
(`fmt.Sprintf("%x", sha256.Sum256([]byte(x)))`). -/
def makeDoc (H : String → String) (id nrBatches i batchSize j : Int) (pay : List Nat) : Doc :=
  let x := decimal (globalIndex id nrBatches i batchSize j)
  let key := H x
  let x := "SHA" ++ x
  let sha := H x
  { Key := key, Sha := sha, Payload := pay }

/-- The loop `for j := int64(1); j <= batchSize; j++` (lines 112-120): the number
of iterations left, the counter `j`, the buffer `docs` and the random source.
`none` is a panic inside `MakeRandomString`. -/
def fillDocs (H : String → String) (nrBatches id payloadSize batchSize i : Int) :
    Nat → Int → List Doc → Rand → Option (List Doc × Rand)
  | 0, _, docs, r => some (docs, r)
  | n + 1, j, docs, r =>
    match MakeRandomString payloadSize r with
    | none => none
    | some (pay, r1) =>
      fillDocs H nrBatches id payloadSize batchSize i n (j + 1)
        (docs ++ [makeDoc H id nrBatches i batchSize j pay]) r1

/-! ## Events, results and the environment of a worker -/

/-- The lines written to standard output. -/
inductive Line where
  | startingGoRoutine
  | writeSomeBatchesError (e : String)
  | goRoutineDone (i : Int)
  | couldNotOpen (e : String)
  | couldNotWrite (e : String)
  | haveImported (i id : Int)
  | times (nrBatches median p90 p99 average : Int)
  | totalWritten (n : Int)
  | errorInWriteSomeBatches
deriving DecidableEq, Repr

/-- What one goroutine does that another goroutine or the outside can observe. -/
inductive Event where
  | sleep (d : Int)
  | wgAdd
  | go (i : Int)
  | wgWait
  | print (l : Line)
  | collection
  | createDocuments (docs : List Doc)
  | lock
  | unlock
  | setHaveError
  | wgDone
deriving DecidableEq, Repr

/-- How a function ends: `return nil`, `return err`, or a run-time panic. -/
inductive Result where
  | ok
  | error (e : String)
  | panicked
deriving DecidableEq, Repr

/-- What the outside answers to one worker: the error of
`db.Collection(nil, "batchimport")` if any, the error of the `CreateDocuments`
call of batch `i` if any, and the duration `time.Now().Sub(start)` measured for
batch `i`. -/
structure Store where
  collectionErr : Option String
  createErr : Int → Option String
  elapsed : Int → Int

/-- What `writeSomeBatches` leaves behind. -/
structure WorkerRun where
  events : List Event
  times : List Int
  result : Result
deriving DecidableEq, Repr

/-! ## `writeSomeBatches` -/

/-- The loop `for i := int64(1); i <= nrBatches; i++` (lines 110-135): iterations
left, counter `i`, the buffer `docs`, the samples `times`, the random source and
the events so far.  The result is `ok` when the loop runs to its end. -/
def batchLoop (H : String → String) (st : Store) (nrBatches id payloadSize batchSize : Int) :
    Nat → Int → List Doc → List Int → Rand → List Event → WorkerRun
  | 0, _, _, times, _, evs => ⟨evs, times, Result.ok⟩
  | n + 1, i, docs, times, r, evs =>
    match fillDocs H nrBatches id payloadSize batchSize i batchSize.toNat 1 docs r with
    | none => ⟨evs, times, Result.panicked⟩
    | some (docs1, r1) =>
      match st.createErr i with
      | some e =>
        ⟨evs ++ [Event.createDocuments docs1, Event.print (Line.couldNotWrite e)], times,
          Result.error e⟩
      | none =>
        batchLoop H st nrBatches id payloadSize batchSize n (i + 1) (docs1.take 0)
          (times ++ [st.elapsed i]) r1
          (evs ++ [Event.createDocuments docs1] ++
            (if i.tmod 100 = 0 then
              [Event.lock, Event.print (Line.haveImported i id), Event.unlock]
            else []))

/-- Modelled from the spec: the type `DurationSlice` is not among the sources;
`sort.Sort(DurationSlice(times))` sorts the samples in ascending order. -/
def sortDurations (times : List Int) : List Int :=
  times.insertionSort (fun a b => a ≤ b)

/-- The index `int(float64(num/den) * float64(nrBatches))` of line 145, for the
factors 0.5, 0.9 and 0.99 written as `num/den`: the product is taken exactly,
and the conversion to `int` truncates towards zero. -/
def percentileIndex (num den : Int) (nrBatches : Int) : Int := (num * nrBatches).tdiv den

/-- Slice indexing `times[k]`; `none` is the panic on an index out of range. -/
def index? (times : List Int) (k : Int) : Option Int :=
  if k < 0 then none else times[k.toNat]?

/-- `sum = sum + int64(t)` over the samples (lines 137-140). -/
def sumDurations (times : List Int) : Int := times.foldl add64 0

/-- Lines 136-147: sort, sum and the statistics line, printed under the mutex.
The arguments of `Printf` are evaluated after `mutex.Lock()`, from left to
right; an index out of range or a division by zero panics.  The throughput
figure, which depends on the clock, is left out of the line. -/
def summarize (nrBatches : Int) (w : WorkerRun) : WorkerRun :=
  let times := sortDurations w.times
  let sum := sumDurations times
  match index? times (percentileIndex 1 2 nrBatches),
        index? times (percentileIndex 9 10 nrBatches),
        index? times (percentileIndex 99 100 nrBatches) with
  | some m, some p90, some p99 =>
    if nrBatches = 0 then ⟨w.events ++ [Event.lock], times, Result.panicked⟩
    else
      ⟨w.events ++ [Event.lock,
          Event.print (Line.times nrBatches m p90 p99 (wrap64 (sum.tdiv nrBatches))),
          Event.unlock], times, Result.ok⟩
  | _, _, _ => ⟨w.events ++ [Event.lock], times, Result.panicked⟩

/-- `writeSomeBatches(nrBatches, id, payloadSize, batchSize, db, mutex)`. -/
def writeSomeBatches (H : String → String) (st : Store)
    (nrBatches id payloadSize batchSize : Int) (r : Rand) : WorkerRun :=
  match st.collectionErr with
  | some e => ⟨[Event.collection, Event.print (Line.couldNotOpen e)], [], Result.error e⟩
  | none =>
    if batchSize < 0 then ⟨[Event.collection], [], Result.panicked⟩
    else
      let w := batchLoop H st nrBatches id payloadSize batchSize nrBatches.toNat 1 [] [] r
        [Event.collection]
      match w.result with
      | Result.ok => summarize nrBatches w
      | _ => w

/-! ## `writeSomeBatchesParallel` -/

/-- What the outside answers to the whole run: per goroutine `i`, the store as
that goroutine sees it and the random values it draws. -/
structure Env where
  store : Int → Store
  rand : Int → Rand

/-- The body of `go func(wg, i)` (lines 74-85): its events, and how the worker
ended.  A panic skips the rest of the body; only the deferred `wg.Done()` runs. -/
def goRoutine (H : String → String) (env : Env) (number payloadSize batchSize : Int)
    (i : Int) : List Event × Result :=
  let w := writeSomeBatches H (env.store i) number i payloadSize batchSize (env.rand i)
  match w.result with
  | Result.panicked =>
    (Event.print Line.startingGoRoutine :: w.events ++ [Event.wgDone], Result.panicked)
  | Result.error e =>
    (Event.print Line.startingGoRoutine :: w.events ++
      [Event.print (Line.writeSomeBatchesError e), Event.setHaveError,
       Event.lock, Event.print (Line.goRoutineDone i), Event.unlock, Event.wgDone],
     Result.error e)
  | Result.ok =>
    (Event.print Line.startingGoRoutine :: w.events ++
      [Event.lock, Event.print (Line.goRoutineDone i), Event.unlock, Event.wgDone],
     Result.ok)

/-- What `writeSomeBatchesParallel` leaves behind: the events of the calling
goroutine, the trace of every goroutine it started (in the order of their
start), the flag `haveError` as read after `wg.Wait()`, and the result. -/
structure ParallelRun where
  main : List Event
  routines : List (List Event × Result)
  haveError : Bool
  result : Result
deriving DecidableEq, Repr

/-- The loop `for i := 1; i <= parallelism; i++` (lines 69-86): iterations left,
counter `i`, the events of the caller and the goroutines started so far. -/
def dispatchLoop (H : String → String) (env : Env)
    (number startDelay payloadSize batchSize : Int) :
    Nat → Int → List Event → List (List Event × Result) →
      List Event × List (List Event × Result)
  | 0, _, evs, rs => (evs, rs)
  | n + 1, i, evs, rs =>
    dispatchLoop H env number startDelay payloadSize batchSize n (i + 1)
      (evs ++ [Event.sleep (mul64 startDelay 1000000), Event.wgAdd, Event.go i])
      (rs ++ [goRoutine H env number payloadSize batchSize i])

/-- The number printed at line 92: `int64(parallelism) * number * batchSize`. -/
def totalDocuments (parallelism number batchSize : Int) : Int :=
  mul64 (mul64 parallelism number) batchSize

/-- `writeSomeBatchesParallel(parallelism, number, startDelay, payloadSize,
batchSize, db)`.  A panic in any goroutine ends the program: the caller never
gets past `wg.Wait()`. -/
def writeSomeBatchesParallel (H : String → String) (env : Env)
    (parallelism number startDelay payloadSize batchSize : Int) : ParallelRun :=
  let d := dispatchLoop H env number startDelay payloadSize batchSize parallelism.toNat 1 [] []
  let haveError := d.2.any (fun t => match t.2 with
    | Result.error _ => true
    | _ => false)
  if d.2.any (fun t => t.2 = Result.panicked) then
    ⟨d.1 ++ [Event.wgWait], d.2, haveError, Result.panicked⟩
  else
    let total := totalDocuments parallelism number batchSize
    if !haveError then
      ⟨d.1 ++ [Event.wgWait, Event.print (Line.totalWritten total)], d.2, haveError, Result.ok⟩
    else
      ⟨d.1 ++ [Event.wgWait, Event.print (Line.totalWritten total),
          Event.print Line.errorInWriteSomeBatches], d.2, haveError,
        Result.error "Error in writeSomeBatches."⟩

/-! ## Observations on traces -/

/-- The batches handed to `CreateDocuments`, in the order of the calls. -/
def submissions (es : List Event) : List (List Doc) :=
  es.filterMap (fun ev => match ev with
    | Event.createDocuments docs => some docs
    | _ => none)

/-- Whether an event is the statistics line of line 145. -/
def isStatistics : Event → Bool
  | Event.print (Line.times _ _ _ _ _) => true
  | _ => false

/-- Whether the goroutine holds the mutex after one more event. -/
def lockStep (held : Bool) : Event → Bool
  | Event.lock => true
  | Event.unlock => false
  | _ => held

/-- Whether the goroutine holds the mutex after a trace, given whether it held
it before. -/
def heldAfter (held : Bool) (es : List Event) : Bool := es.foldl lockStep held

/-- Every write of `haveError` in the trace happens while the goroutine holds
the mutex. -/
def flagWritesLocked : Bool → List Event → Bool
  | _, [] => true
  | held, ev :: es =>
    (if ev = Event.setHaveError then held else true) && flagWritesLocked (lockStep held ev) es

/-- Every write of `haveError` in the trace happens while the goroutine does not
hold the mutex. -/
def flagWritesUnlocked : Bool → List Event → Bool
  | _, [] => true
  | held, ev :: es =>
    (if ev = Event.setHaveError then !held else true) &&
      flagWritesUnlocked (lockStep held ev) es

/-- The number printed in the line "Total number of documents written", if the
trace has that line. -/
def reportedTotal : List Event → Option Int
  | [] => none
  | Event.print (Line.totalWritten n) :: _ => some n
  | _ :: es => reportedTotal es

/-! ## `Collection.CreateDocuments` (`pkg/database/operations.go`) -/

/-- What the outside answers through the collection handle: the result of
`Count`, and the error of the `k`-th call of `CreateDocuments` (counted from
0) if any. -/
structure ColHandle where
  name : String
  count : Except String Int
  createErr : Nat → Option String

/-- The receiver of `CreateDocuments` (`type Collection`).  The generator is
given the number of its earlier calls, so that it may answer differently each
time; `none` is the nil handle. -/
structure Collection (α : Type) where
  expectedSize : Int
  expectedCount : Int
  documentGenerator : Int → Nat → α
  colHandle : Option ColHandle

/-- What a call of `Collection.CreateDocuments` leaves behind: the number of
`Count` calls, the batches handed to the store's `CreateDocuments`, and the
result. -/
structure TopUpRun (α : Type) where
  countCalls : Nat
  batches : List (List α)
  result : Result

/-- The loop `for i = 0; i < c.expectedCount-currentCount; i++` (lines 103-109):
iterations left, `sentSize`, `documents`, and the number of generator calls so
far. -/
def fillDocuments {α : Type} (gen : Int → Nat → α) (sizeOfEachDocument : Int) :
    Nat → Int → List α → Nat → List α × Nat
  | 0, _, documents, calls => (documents, calls)
  | n + 1, sentSize, documents, calls =>
    let documents1 := documents ++ [gen sizeOfEachDocument calls]
    let sentSize1 := add64 sentSize sizeOfEachDocument
    if sentSize1 > 100000000 then (documents1, calls + 1)
    else fillDocuments gen sizeOfEachDocument n sentSize1 documents1 (calls + 1)

/-- The loop `for c.expectedCount-currentCount > 0` (lines 98-119), with a bound
on the number of iterations; `none` when the bound is reached before the loop
ends. -/
def topUpLoop {α : Type} (c : Collection α) (h : ColHandle) (sizeOfEachDocument : Int) :
    Nat → Int → Nat → List (List α) → Option (TopUpRun α)
  | 0, currentCount, _, sent =>
    if sub64 c.expectedCount currentCount > 0 then none else some ⟨1, sent, Result.ok⟩
  | fuel + 1, currentCount, calls, sent =>
    if sub64 c.expectedCount currentCount > 0 then
      let filled := fillDocuments c.documentGenerator sizeOfEachDocument
        (sub64 c.expectedCount currentCount).toNat 0 [] calls
      let currentCount1 := add64 currentCount filled.1.length
      match h.createErr sent.length with
      | some e => some ⟨1, sent ++ [filled.1], Result.error ("can not write documents: " ++ e)⟩
      | none => topUpLoop c h sizeOfEachDocument fuel currentCount1 filled.2 (sent ++ [filled.1])
    else some ⟨1, sent, Result.ok⟩

/-- `Collection.CreateDocuments(ctx)`, with a bound on the iterations of its
outer loop. -/
def Collection.CreateDocuments {α : Type} (c : Collection α) (fuel : Nat) :
    Option (TopUpRun α) :=
  if c.expectedCount = 0 ∨ c.expectedSize = 0 then some ⟨0, [], Result.ok⟩
  else
    match c.colHandle with
    | none => some ⟨0, [], Result.error "collection handler can not be nil"⟩
    | some h =>
      match h.count with
      | Except.error e =>
        some ⟨1, [], Result.error
          ("con not get count of documents for a collection " ++ h.name ++ ": " ++ e)⟩
      | Except.ok currentCount =>
        topUpLoop c h (wrap64 (c.expectedSize.tdiv c.expectedCount)) fuel currentCount 0 []

/-- The batches top a collection up from `remaining` missing documents: while
documents are missing, the next batch holds all of them when the size `d` of a
document is 0, and otherwise `min(remaining, floor(100000000 / d) + 1)`. -/
def toppedUp {α : Type} (d : Int) : Int → List (List α) → Bool
  | remaining, [] => decide (remaining ≤ 0)
  | remaining, b :: bs =>
    decide (0 < remaining) &&
    decide ((b.length : Int) =
      if d = 0 then remaining else min remaining (100000000 / d + 1)) &&
    toppedUp d (remaining - b.length) bs

/-! ## Closed forms used in the proofs -/

/-- The number read back from a list of decimal digit characters. -/
def digitsValue (acc : Nat) (cs : List Char) : Nat :=
  cs.foldl (fun a c => a * 10 + (c.toNat - 48)) acc

/-- The bytes of the string made from the random values `r 0, r 1, ...`. -/
def randomString (r : Rand) (length : Nat) : List Nat :=
  fillBytes r length 0 (List.replicate length 0)

/-- The documents that `n` iterations of the inner loop append, from item `j` on. -/
def batchDocs (H : String → String) (nrBatches id payloadSize batchSize i : Int) :
    Nat → Int → Rand → List Doc
  | 0, _, _ => []
  | n + 1, j, r =>
    makeDoc H id nrBatches i batchSize j (randomString r payloadSize.toNat) ::
      batchDocs H nrBatches id payloadSize batchSize i n (j + 1) (dropRand r payloadSize.toNat)

/-- The progress line of lines 130-134, under the mutex, every hundredth batch. -/
def progressEvents (i id : Int) : List Event :=
  if i.tmod 100 = 0 then [Event.lock, Event.print (Line.haveImported i id), Event.unlock]
  else []

/-- The batch that the iteration for batch `i` submits when it starts from an
empty buffer and the random source `r`. -/
def batchOf (H : String → String) (nrBatches id payloadSize batchSize i : Int) (r : Rand) :
    List Doc :=
  batchDocs H nrBatches id payloadSize batchSize i batchSize.toNat 1 r

/-- The events of `a` successful iterations of the batch loop, from batch `i` on. -/
def okEvents (H : String → String) (nrBatches id payloadSize batchSize : Int) :
    Nat → Int → Rand → List Event
  | 0, _, _ => []
  | a + 1, i, r =>
    Event.createDocuments (batchOf H nrBatches id payloadSize batchSize i r) ::
      (progressEvents i id ++
        okEvents H nrBatches id payloadSize batchSize a (i + 1)
          (dropRand r (batchSize.toNat * payloadSize.toNat)))

/-- The samples of `a` successful iterations of the batch loop, from batch `i` on. -/
def okTimes (st : Store) : Nat → Int → List Int
  | 0, _ => []
  | a + 1, i => st.elapsed i :: okTimes st a (i + 1)

/-- A trace that does not write the flag and leaves the mutex free. -/
def quiet (evs : List Event) : Prop := Event.setHaveError ∉ evs ∧ heldAfter false evs = false

/-- The events of `n` iterations of the dispatch loop, from goroutine `i` on. -/
def dispatchEvents (d : Int) : Nat → Int → List Event
  | 0, _ => []
  | n + 1, i => Event.sleep d :: Event.wgAdd :: Event.go i :: dispatchEvents d n (i + 1)

/-- The goroutines started by `n` iterations of the dispatch loop, from `i` on. -/
def routinesFrom (H : String → String) (env : Env) (number payloadSize batchSize : Int) :
    Nat → Int → List (List Event × Result)
  | 0, _ => []
  | n + 1, i =>
    goRoutine H env number payloadSize batchSize i ::
      routinesFrom H env number payloadSize batchSize n (i + 1)

/-! ## Arithmetic lemmas -/

theorem wrap64_of_fits {x : Int} (h1 : -2 ^ 63 ≤ x) (h2 : x < 2 ^ 63) : wrap64 x = x := by
  unfold wrap64
  rw [Int.emod_eq_of_lt (by omega) (by omega)]
  omega

theorem exactIndex_bounds {P B S w i j : Int} (hS : 1 ≤ S)
    (hw1 : 1 ≤ w) (hw2 : w ≤ P) (hi1 : 1 ≤ i) (hi2 : i ≤ B) (hj2 : j ≤ S) :
    1 ≤ w * B ∧ w * B ≤ (P + 1) * B * S ∧
    1 ≤ w * B + i - 1 ∧ w * B + i ≤ (P + 1) * B * S ∧
    1 ≤ (w * B + i - 1) * S ∧ (w * B + i - 1) * S + j ≤ (P + 1) * B * S := by
  have hB : 1 ≤ B := le_trans hi1 hi2
  have h1 : 1 ≤ w * B := by nlinarith
  have h2 : w * B ≤ P * B := by nlinarith
  have h3 : w * B + i ≤ (P + 1) * B := by nlinarith
  have h4 : (P + 1) * B ≤ (P + 1) * B * S := by nlinarith
  have h5 : (w * B + i - 1) * S ≤ ((P + 1) * B - 1) * S := by nlinarith
  have h6 : 1 ≤ (w * B + i - 1) * S := by nlinarith
  refine ⟨h1, by nlinarith, by omega, by omega, h6, by nlinarith⟩

theorem globalIndex_eq_exactIndex {P B S w i j : Int} (hS : 1 ≤ S)
    (hw1 : 1 ≤ w) (hw2 : w ≤ P) (hi1 : 1 ≤ i) (hi2 : i ≤ B) (hj1 : 1 ≤ j) (hj2 : j ≤ S)
    (hfit : (P + 1) * B * S < 2 ^ 63) :
    globalIndex w B i S j = exactIndex w B i S j := by
  obtain ⟨h1, h2, h3, h4, h5, h6⟩ := exactIndex_bounds hS hw1 hw2 hi1 hi2 hj2
  unfold globalIndex exactIndex add64 sub64 mul64
  rw [wrap64_of_fits (x := w * B) (by omega) (by omega)]
  rw [wrap64_of_fits (x := w * B + i) (by omega) (by omega)]
  rw [wrap64_of_fits (x := w * B + i - 1) (by omega) (by omega)]
  rw [wrap64_of_fits (x := (w * B + i - 1) * S) (by omega) (by omega)]
  rw [wrap64_of_fits (x := (w * B + i - 1) * S + j) (by omega) (by omega)]

theorem mixed_radix_injective {a b S j k : Int}
    (hj1 : 1 ≤ j) (hj2 : j ≤ S) (hk1 : 1 ≤ k) (hk2 : k ≤ S)
    (h : a * S + j = b * S + k) : a = b ∧ j = k := by
  have hab : a = b := by
    rcases lt_trichotomy a b with hlt | heq | hgt
    · exfalso
      have : (a + 1) * S ≤ b * S := by nlinarith
      nlinarith
    · exact heq
    · exfalso
      have : (b + 1) * S ≤ a * S := by nlinarith
      nlinarith
  subst hab
  exact ⟨rfl, by omega⟩

theorem exactIndex_injective {B S w i j w1 i1 j1 : Int}
    (hi1 : 1 ≤ i) (hi2 : i ≤ B) (hj1 : 1 ≤ j) (hj2 : j ≤ S)
    (hi3 : 1 ≤ i1) (hi4 : i1 ≤ B) (hj3 : 1 ≤ j1) (hj4 : j1 ≤ S)
    (h : exactIndex w B i S j = exactIndex w1 B i1 S j1) : w = w1 ∧ i = i1 ∧ j = j1 := by
  unfold exactIndex at h
  obtain ⟨h1, h2⟩ := mixed_radix_injective hj1 hj2 hj3 hj4 h
  have h3 : w * B + i = w1 * B + i1 := by omega
  obtain ⟨h4, h5⟩ := mixed_radix_injective hi1 hi2 hi3 hi4 h3
  exact ⟨h4, h5, h2⟩

/-! ## The decimal rendering is injective -/

theorem digitChar_value (k : Nat) (hk : k < 10) : (Nat.digitChar k).toNat - 48 = k := by
  interval_cases k <;> rfl

theorem digitChar_ne_minus (k : Nat) (hk : k < 10) : Nat.digitChar k ≠ '-' := by
  interval_cases k <;> decide

theorem digitsValue_toDigitsCore (fuel : Nat) :
    ∀ (n : Nat) (ds : List Char), n < fuel →
      digitsValue 0 (Nat.toDigitsCore 10 fuel n ds) = digitsValue n ds := by
  induction fuel with
  | zero => intro n ds h; omega
  | succ fuel ih =>
    intro n ds h
    have hd : (Nat.digitChar (n % 10)).toNat - 48 = n % 10 :=
      digitChar_value _ (Nat.mod_lt _ (by decide))
    simp only [Nat.toDigitsCore]
    split
    · simp only [digitsValue, List.foldl_cons, hd]
      congr 1
      omega
    · rw [ih (n / 10) _ (by omega)]
      simp only [digitsValue, List.foldl_cons, hd]
      congr 1
      omega

theorem toDigitsCore_no_minus (fuel : Nat) :
    ∀ (n : Nat) (ds : List Char), '-' ∉ ds → '-' ∉ Nat.toDigitsCore 10 fuel n ds := by
  induction fuel with
  | zero => intro n ds h; simpa [Nat.toDigitsCore] using h
  | succ fuel ih =>
    intro n ds h
    have hd : Nat.digitChar (n % 10) ≠ '-' := digitChar_ne_minus _ (Nat.mod_lt _ (by decide))
    have h2 : '-' ∉ Nat.digitChar (n % 10) :: ds := by
      simp only [List.mem_cons, not_or]
      exact ⟨fun e => hd e.symm, h⟩
    simp only [Nat.toDigitsCore]
    split
    · exact h2
    · exact ih _ _ h2

theorem repr_injective {a b : Nat} (h : Nat.repr a = Nat.repr b) : a = b := by
  have h1 : Nat.toDigits 10 a = Nat.toDigits 10 b := by
    have := congrArg String.data h
    simpa [Nat.repr, List.asString] using this
  have ha := digitsValue_toDigitsCore (a + 1) a [] (Nat.lt_succ_self a)
  have hb := digitsValue_toDigitsCore (b + 1) b [] (Nat.lt_succ_self b)
  simp only [Nat.toDigits] at h1
  rw [h1, hb] at ha
  simpa [digitsValue] using ha.symm

theorem repr_no_minus (a : Nat) : '-' ∉ (Nat.repr a).data := by
  simp only [Nat.repr, List.asString, Nat.toDigits]
  exact toDigitsCore_no_minus _ _ _ (by simp)

theorem decimal_injective {x y : Int} (h : decimal x = decimal y) : x = y := by
  cases x with
  | ofNat a =>
    cases y with
    | ofNat b => simp only [decimal] at h; rw [repr_injective h]
    | negSucc b =>
      exfalso
      simp only [decimal] at h
      have := repr_no_minus a
      rw [h] at this
      simp at this
  | negSucc a =>
    cases y with
    | ofNat b =>
      exfalso
      simp only [decimal] at h
      have := repr_no_minus b
      rw [← h] at this
      simp at this
    | negSucc b =>
      simp only [decimal] at h
      have h1 := congrArg String.data h
      simp only [String.data_append, List.append_cancel_left_eq] at h1
      have h2 : Nat.repr (a + 1) = Nat.repr (b + 1) := String.ext h1
      have := repr_injective h2
      congr 1
      omega

/-! ## `MakeRandomString` -/

theorem fillBytes_length (r : Rand) (n : Nat) :
    ∀ (i : Nat) (b : List Nat), (fillBytes r n i b).length = b.length := by
  induction n with
  | zero => intro i b; rfl
  | succ n ih => intro i b; simp only [fillBytes, ih, List.length_set]

theorem fillBytes_getElem? (r : Rand) (n : Nat) :
    ∀ (i : Nat) (b : List Nat) (k : Nat), k < b.length →
      (fillBytes r n i b)[k]? =
        if i ≤ k ∧ k < i + n then some (randomByte (r k)) else b[k]? := by
  induction n with
  | zero =>
    intro i b k _
    have : ¬ (i ≤ k ∧ k < i + 0) := by omega
    simp only [fillBytes, this, if_false]
  | succ n ih =>
    intro i b k hk
    simp only [fillBytes]
    rw [ih (i + 1) _ k (by simpa using hk), List.getElem?_set]
    by_cases h1 : i = k
    · subst h1
      have h2 : ¬ (i + 1 ≤ i ∧ i < i + 1 + n) := by omega
      have h3 : i ≤ i ∧ i < i + (n + 1) := by omega
      simp only [h2, h3, hk, if_true, if_false, and_self]
    · by_cases h4 : i + 1 ≤ k ∧ k < i + 1 + n
      · have h5 : i ≤ k ∧ k < i + (n + 1) := by omega
        simp only [h4, h5, and_self, if_true]
      · have h5 : ¬ (i ≤ k ∧ k < i + (n + 1)) := by omega
        simp only [h4, h5, h1, if_false]

theorem randomByte_range {v : Int} (hv : 0 ≤ v) : 33 ≤ randomByte v ∧ randomByte v ≤ 122 := by
  unfold randomByte toByte add64
  have h1 : v.tmod 90 = v % 90 := Int.tmod_eq_emod hv (by decide)
  have h2 : 0 ≤ v % 90 := Int.emod_nonneg _ (by decide)
  have h3 : v % 90 < 90 := Int.emod_lt_of_pos _ (by decide)
  rw [h1, wrap64_of_fits (by omega) (by omega)]
  omega

theorem randomByte_eq {v : Int} (hv : 0 ≤ v) : (randomByte v : Int) = 33 + v % 90 := by
  unfold randomByte toByte add64
  have h1 : v.tmod 90 = v % 90 := Int.tmod_eq_emod hv (by decide)
  have h2 : 0 ≤ v % 90 := Int.emod_nonneg _ (by decide)
  have h3 : v % 90 < 90 := Int.emod_lt_of_pos _ (by decide)
  rw [h1, wrap64_of_fits (by omega) (by omega)]
  omega

theorem randomString_length (r : Rand) (n : Nat) : (randomString r n).length = n := by
  simp [randomString, fillBytes_length]

theorem randomString_getElem? (r : Rand) (n k : Nat) (hk : k < n) :
    (randomString r n)[k]? = some (randomByte (r k)) := by
  unfold randomString
  rw [fillBytes_getElem? r n 0 _ k (by simpa using hk)]
  have : 0 ≤ k ∧ k < 0 + n := by omega
  simp only [this, and_self, if_true]

theorem MakeRandomString_eq {length : Int} (h : 0 ≤ length) (r : Rand) :
    MakeRandomString length r =
      some (randomString r length.toNat, dropRand r length.toNat) := by
  unfold MakeRandomString randomString
  rw [if_neg (by omega)]

/-! ## The inner loop: one batch -/

theorem dropRand_dropRand (r : Rand) (a b : Nat) :
    dropRand (dropRand r a) b = dropRand r (a + b) := by
  funext k
  simp only [dropRand]
  congr 1
  omega

theorem dropRand_zero (r : Rand) : dropRand r 0 = r := rfl

theorem fillDocs_eq (H : String → String) (nrBatches id payloadSize batchSize i : Int)
    (hp : 0 ≤ payloadSize) (n : Nat) :
    ∀ (j : Int) (docs : List Doc) (r : Rand),
      fillDocs H nrBatches id payloadSize batchSize i n j docs r =
        some (docs ++ batchDocs H nrBatches id payloadSize batchSize i n j r,
              dropRand r (n * payloadSize.toNat)) := by
  induction n with
  | zero => intro j docs r; simp [fillDocs, batchDocs, dropRand_zero]
  | succ n ih =>
    intro j docs r
    simp only [fillDocs, MakeRandomString_eq hp, batchDocs]
    rw [ih]
    rw [dropRand_dropRand,
      show payloadSize.toNat + n * payloadSize.toNat = (n + 1) * payloadSize.toNat by ring]
    simp

theorem batchDocs_length (H : String → String) (nrBatches id payloadSize batchSize i : Int)
    (n : Nat) : ∀ (j : Int) (r : Rand),
      (batchDocs H nrBatches id payloadSize batchSize i n j r).length = n := by
  induction n with
  | zero => intro j r; rfl
  | succ n ih => intro j r; simp [batchDocs, ih]

theorem batchDocs_getElem? (H : String → String) (nrBatches id payloadSize batchSize i : Int)
    (n : Nat) : ∀ (j : Int) (r : Rand) (k : Nat), k < n →
      (batchDocs H nrBatches id payloadSize batchSize i n j r)[k]? =
        some (makeDoc H id nrBatches i batchSize (j + k)
          (randomString (dropRand r (k * payloadSize.toNat)) payloadSize.toNat)) := by
  induction n with
  | zero => intro j r k hk; omega
  | succ n ih =>
    intro j r k hk
    cases k with
    | zero => simp [batchDocs, dropRand_zero]
    | succ k =>
      simp only [batchDocs, List.getElem?_cons_succ]
      rw [ih (j + 1) _ k (by omega), dropRand_dropRand]
      have h1 : j + 1 + (k : Int) = j + ((k + 1 : Nat) : Int) := by push_cast; ring
      have h2 : payloadSize.toNat + k * payloadSize.toNat = (k + 1) * payloadSize.toNat := by
        ring
      rw [h1, h2]

/-! ## The batch loop -/

theorem batchLoop_ok_steps (H : String → String) (st : Store)
    (nrBatches id payloadSize batchSize : Int) (hp : 0 ≤ payloadSize) (b : Nat) (a : Nat) :
    ∀ (i : Int) (times : List Int) (r : Rand) (evs : List Event),
      (∀ m : Nat, m < a → st.createErr (i + m) = none) →
      batchLoop H st nrBatches id payloadSize batchSize (a + b) i [] times r evs =
        batchLoop H st nrBatches id payloadSize batchSize b (i + a) []
          (times ++ okTimes st a i)
          (dropRand r (a * (batchSize.toNat * payloadSize.toNat)))
          (evs ++ okEvents H nrBatches id payloadSize batchSize a i r) := by
  induction a with
  | zero => intro i times r evs _; simp [okTimes, okEvents, dropRand_zero]
  | succ a ih =>
    intro i times r evs hok
    have h0 : st.createErr i = none := by simpa using hok 0 (by omega)
    have hrest : ∀ m : Nat, m < a → st.createErr (i + 1 + m) = none := by
      intro m hm
      have := hok (m + 1) (by omega)
      rw [show i + 1 + (m : Int) = i + ((m + 1 : Nat) : Int) by push_cast; ring]
      exact this
    rw [show a + 1 + b = (a + b) + 1 by omega]
    simp only [batchLoop, fillDocs_eq H nrBatches id payloadSize batchSize i hp, h0,
      List.nil_append, List.take_zero]
    rw [ih (i + 1) _ _ _ hrest, dropRand_dropRand]
    have h1 : i + 1 + (a : Int) = i + ((a + 1 : Nat) : Int) := by push_cast; ring
    have h2 : batchSize.toNat * payloadSize.toNat + a * (batchSize.toNat * payloadSize.toNat) =
        (a + 1) * (batchSize.toNat * payloadSize.toNat) := by ring
    rw [h1, h2]
    simp [okTimes, okEvents, batchOf, progressEvents, List.append_assoc]

theorem batchLoop_fail_step (H : String → String) (st : Store)
    (nrBatches id payloadSize batchSize : Int) (hp : 0 ≤ payloadSize) (b : Nat)
    (i : Int) (times : List Int) (r : Rand) (evs : List Event) (e : String)
    (hfail : st.createErr i = some e) :
    batchLoop H st nrBatches id payloadSize batchSize (b + 1) i [] times r evs =
      ⟨evs ++ [Event.createDocuments (batchOf H nrBatches id payloadSize batchSize i r),
          Event.print (Line.couldNotWrite e)], times, Result.error e⟩ := by
  simp only [batchLoop, fillDocs_eq H nrBatches id payloadSize batchSize i hp, hfail,
    List.nil_append, batchOf]

theorem batchLoop_no_panic (H : String → String) (st : Store)
    (nrBatches id payloadSize batchSize : Int) (hp : 0 ≤ payloadSize) (n : Nat) :
    ∀ (i : Int) (docs : List Doc) (times : List Int) (r : Rand) (evs : List Event),
      (batchLoop H st nrBatches id payloadSize batchSize n i docs times r evs).result ≠
          Result.panicked ∧
      ((batchLoop H st nrBatches id payloadSize batchSize n i docs times r evs).result =
          Result.ok →
        (batchLoop H st nrBatches id payloadSize batchSize n i docs times r evs).times.length =
          times.length + n) := by
  induction n with
  | zero => intro i docs times r evs; simp [batchLoop]
  | succ n ih =>
    intro i docs times r evs
    simp only [batchLoop, fillDocs_eq H nrBatches id payloadSize batchSize i hp]
    cases hc : st.createErr i with
    | some e => simp
    | none =>
      simp only
      obtain ⟨h1, h2⟩ := ih (i + 1)
        (List.take 0 (docs ++ batchDocs H nrBatches id payloadSize batchSize i batchSize.toNat 1 r))
        (times ++ [st.elapsed i])
        (dropRand r (batchSize.toNat * payloadSize.toNat))
        (evs ++ [Event.createDocuments
            (docs ++ batchDocs H nrBatches id payloadSize batchSize i batchSize.toNat 1 r)] ++
          (if i.tmod 100 = 0 then
            [Event.lock, Event.print (Line.haveImported i id), Event.unlock]
          else []))
      refine ⟨h1, fun hok => ?_⟩
      rw [h2 hok]
      simp only [List.length_append, List.length_singleton]
      omega

/-! ## The statistics -/

theorem sortDurations_length (times : List Int) :
    (sortDurations times).length = times.length := by
  simp [sortDurations, List.length_insertionSort]

theorem sortDurations_sorted (times : List Int) :
    (sortDurations times).Sorted (fun a b => a ≤ b) :=
  List.sorted_insertionSort _ _

theorem sortDurations_mem (times : List Int) (x : Int) :
    x ∈ sortDurations times ↔ x ∈ times :=
  (List.perm_insertionSort _ _).mem_iff

theorem sorted_getElem?_le {l : List Int} (hs : l.Sorted (fun a b => a ≤ b)) {a b : Nat}
    {x y : Int} (ha : l[a]? = some x) (hb : l[b]? = some y) (hab : a ≤ b) : x ≤ y := by
  obtain ⟨ha1, ha2⟩ := List.getElem?_eq_some_iff.mp ha
  obtain ⟨hb1, hb2⟩ := List.getElem?_eq_some_iff.mp hb
  rcases Nat.eq_or_lt_of_le hab with h | h
  · subst h
    rw [ha2] at hb2
    exact le_of_eq hb2
  · have := List.pairwise_iff_getElem.mp hs a b ha1 hb1 h
    rw [ha2, hb2] at this
    exact this

theorem index?_eq {l : List Int} {k : Int} (h0 : 0 ≤ k) (h1 : k < l.length) :
    ∃ x, index? l k = some x ∧ l[k.toNat]? = some x ∧ x ∈ l := by
  have hk : k.toNat < l.length := by omega
  refine ⟨l[k.toNat], ?_, ?_, List.getElem_mem _⟩
  · unfold index?
    rw [if_neg (by omega)]
    exact List.getElem?_eq_getElem hk
  · exact List.getElem?_eq_getElem hk

theorem percentileIndex_half {n : Int} (hn : 0 ≤ n) : percentileIndex 1 2 n = n / 2 := by
  unfold percentileIndex
  rw [Int.tdiv_eq_ediv (by omega) (by decide)]
  omega

theorem percentileIndex_ninety {n : Int} (hn : 0 ≤ n) :
    percentileIndex 9 10 n = 9 * n / 10 := by
  unfold percentileIndex
  rw [Int.tdiv_eq_ediv (by omega) (by decide)]

theorem percentileIndex_ninetyNine {n : Int} (hn : 0 ≤ n) :
    percentileIndex 99 100 n = 99 * n / 100 := by
  unfold percentileIndex
  rw [Int.tdiv_eq_ediv (by omega) (by decide)]

theorem percentileIndex_eq_floor (num : Int) (den : Nat) (n : Int) (hnum : 0 ≤ num)
    (hn : 0 ≤ n) : percentileIndex num den n = ⌊((num : ℚ) / (den : ℚ)) * (n : ℚ)⌋ := by
  unfold percentileIndex
  rw [Int.tdiv_eq_ediv (by positivity) (by positivity)]
  have : ((num : ℚ) / (den : ℚ)) * (n : ℚ) = ((num * n : Int) : ℚ) / ((den : Nat) : ℚ) := by
    push_cast
    ring
  rw [this, Rat.floor_intCast_div_natCast]

theorem percentile_bounds {n : Int} (hn : 1 ≤ n) :
    0 ≤ percentileIndex 1 2 n ∧
    percentileIndex 1 2 n ≤ percentileIndex 9 10 n ∧
    percentileIndex 9 10 n ≤ percentileIndex 99 100 n ∧
    percentileIndex 99 100 n ≤ n - 1 := by
  rw [percentileIndex_half (by omega), percentileIndex_ninety (by omega),
    percentileIndex_ninetyNine (by omega)]
  omega

/-- The statistics line that `summarize` prints for a worker that recorded one
sample per batch. -/
theorem summarize_ok (nrBatches : Int) (w : WorkerRun) (hn : 1 ≤ nrBatches)
    (hlen : w.times.length = nrBatches.toNat) :
    ∃ m p90 p99 : Int,
      index? (sortDurations w.times) (percentileIndex 1 2 nrBatches) = some m ∧
      index? (sortDurations w.times) (percentileIndex 9 10 nrBatches) = some p90 ∧
      index? (sortDurations w.times) (percentileIndex 99 100 nrBatches) = some p99 ∧
      summarize nrBatches w =
        ⟨w.events ++ [Event.lock,
            Event.print (Line.times nrBatches m p90 p99
              (wrap64 ((sumDurations (sortDurations w.times)).tdiv nrBatches))),
            Event.unlock], sortDurations w.times, Result.ok⟩ := by
  obtain ⟨b0, b1, b2, b3⟩ := percentile_bounds hn
  have hl : ((sortDurations w.times).length : Int) = nrBatches := by
    rw [sortDurations_length, hlen]
    omega
  obtain ⟨m, hm, _, _⟩ := index?_eq (l := sortDurations w.times)
    (k := percentileIndex 1 2 nrBatches) b0 (by omega)
  obtain ⟨p90, hp90, _, _⟩ := index?_eq (l := sortDurations w.times)
    (k := percentileIndex 9 10 nrBatches) (by omega) (by omega)
  obtain ⟨p99, hp99, _, _⟩ := index?_eq (l := sortDurations w.times)
    (k := percentileIndex 99 100 nrBatches) (by omega) (by omega)
  refine ⟨m, p90, p99, hm, hp90, hp99, ?_⟩
  unfold summarize
  simp only [hm, hp90, hp99]
  rw [if_neg (by omega)]

/-! ## Traces of the batch loop -/

theorem submissions_append (a b : List Event) :
    submissions (a ++ b) = submissions a ++ submissions b := by
  simp [submissions, List.filterMap_append]

theorem submissions_cons_createDocuments (docs : List Doc) (es : List Event) :
    submissions (Event.createDocuments docs :: es) = docs :: submissions es := by
  simp [submissions, List.filterMap_cons]

theorem submissions_progressEvents (i id : Int) : submissions (progressEvents i id) = [] := by
  unfold progressEvents
  split <;> simp [submissions]

theorem okTimes_length (st : Store) (a : Nat) : ∀ i : Int, (okTimes st a i).length = a := by
  induction a with
  | zero => intro i; rfl
  | succ a ih => intro i; simp [okTimes, ih]

theorem okTimes_getElem? (st : Store) (a : Nat) :
    ∀ (i : Int) (m : Nat), m < a → (okTimes st a i)[m]? = some (st.elapsed (i + m)) := by
  induction a with
  | zero => intro i m hm; omega
  | succ a ih =>
    intro i m hm
    cases m with
    | zero => simp [okTimes]
    | succ m =>
      simp only [okTimes, List.getElem?_cons_succ]
      rw [ih (i + 1) m (by omega)]
      congr 2
      push_cast
      ring

theorem submissions_okEvents_length (H : String → String)
    (nrBatches id payloadSize batchSize : Int) (a : Nat) :
    ∀ (i : Int) (r : Rand),
      (submissions (okEvents H nrBatches id payloadSize batchSize a i r)).length = a := by
  induction a with
  | zero => intro i r; rfl
  | succ a ih =>
    intro i r
    simp [okEvents, submissions_cons_createDocuments, submissions_append,
      submissions_progressEvents, ih]

theorem submissions_okEvents_getElem? (H : String → String)
    (nrBatches id payloadSize batchSize : Int) (a : Nat) :
    ∀ (i : Int) (r : Rand) (m : Nat), m < a →
      (submissions (okEvents H nrBatches id payloadSize batchSize a i r))[m]? =
        some (batchOf H nrBatches id payloadSize batchSize (i + m)
          (dropRand r (m * (batchSize.toNat * payloadSize.toNat)))) := by
  induction a with
  | zero => intro i r m hm; omega
  | succ a ih =>
    intro i r m hm
    simp only [okEvents, submissions_cons_createDocuments, submissions_append,
      submissions_progressEvents, List.nil_append]
    cases m with
    | zero => simp [dropRand_zero]
    | succ m =>
      rw [List.getElem?_cons_succ, ih (i + 1) _ m (by omega), dropRand_dropRand]
      have h1 : i + 1 + (m : Int) = i + ((m + 1 : Nat) : Int) := by push_cast; ring
      have h2 : batchSize.toNat * payloadSize.toNat + m * (batchSize.toNat * payloadSize.toNat)
          = (m + 1) * (batchSize.toNat * payloadSize.toNat) := by ring
      rw [h1, h2]

theorem submissions_okEvents_sum (H : String → String)
    (nrBatches id payloadSize batchSize : Int) (a : Nat) :
    ∀ (i : Int) (r : Rand),
      ((submissions (okEvents H nrBatches id payloadSize batchSize a i r)).map
        List.length).sum = a * batchSize.toNat := by
  induction a with
  | zero => intro i r; simp [okEvents, submissions]
  | succ a ih =>
    intro i r
    simp only [okEvents, submissions_cons_createDocuments, submissions_append,
      submissions_progressEvents, List.nil_append, List.map_cons, List.sum_cons, ih, batchOf,
      batchDocs_length]
    ring

theorem okEvents_no_statistics (H : String → String)
    (nrBatches id payloadSize batchSize : Int) (a : Nat) :
    ∀ (i : Int) (r : Rand),
      ∀ ev ∈ okEvents H nrBatches id payloadSize batchSize a i r, isStatistics ev = false := by
  induction a with
  | zero => intro i r ev h; simp [okEvents] at h
  | succ a ih =>
    intro i r ev h
    simp only [okEvents, List.mem_cons, List.mem_append] at h
    rcases h with h | h | h
    · subst h; rfl
    · unfold progressEvents at h
      split at h
      · simp only [List.mem_cons, List.mem_singleton, List.not_mem_nil, or_false] at h
        rcases h with h | h | h <;> subst h <;> rfl
      · simp at h
    · exact ih _ _ ev h

/-! ## The worker as a whole -/

/-- A worker whose every submission succeeds: the trace before the statistics. -/
theorem writeSomeBatches_all_ok (H : String → String) (st : Store)
    (nrBatches id payloadSize batchSize : Int) (r : Rand)
    (hopen : st.collectionErr = none) (hS : 0 ≤ batchSize) (hp : 0 ≤ payloadSize)
    (hall : ∀ m : Nat, m < nrBatches.toNat → st.createErr (1 + m) = none) :
    writeSomeBatches H st nrBatches id payloadSize batchSize r =
      summarize nrBatches
        ⟨Event.collection :: okEvents H nrBatches id payloadSize batchSize nrBatches.toNat 1 r,
          okTimes st nrBatches.toNat 1, Result.ok⟩ := by
  unfold writeSomeBatches
  simp only [hopen]
  rw [if_neg (by omega)]
  have h := batchLoop_ok_steps H st nrBatches id payloadSize batchSize hp 0 nrBatches.toNat 1 []
    r [Event.collection] hall
  simp only [Nat.add_zero] at h
  rw [h]
  simp [batchLoop]

/-- A worker whose first `k` submissions succeed and whose next one fails. -/
theorem writeSomeBatches_first_failure (H : String → String) (st : Store)
    (nrBatches id payloadSize batchSize : Int) (r : Rand) (k : Nat) (e : String)
    (hopen : st.collectionErr = none) (hS : 0 ≤ batchSize) (hp : 0 ≤ payloadSize)
    (hk : k < nrBatches.toNat)
    (hok : ∀ m : Nat, m < k → st.createErr (1 + m) = none)
    (hfail : st.createErr (1 + k) = some e) :
    writeSomeBatches H st nrBatches id payloadSize batchSize r =
      ⟨Event.collection :: okEvents H nrBatches id payloadSize batchSize k 1 r ++
          [Event.createDocuments (batchOf H nrBatches id payloadSize batchSize (1 + k)
              (dropRand r (k * (batchSize.toNat * payloadSize.toNat)))),
            Event.print (Line.couldNotWrite e)],
        okTimes st k 1, Result.error e⟩ := by
  unfold writeSomeBatches
  simp only [hopen]
  rw [if_neg (by omega)]
  obtain ⟨b, hb⟩ : ∃ b, nrBatches.toNat = k + (b + 1) := ⟨nrBatches.toNat - k - 1, by omega⟩
  rw [hb, batchLoop_ok_steps H st nrBatches id payloadSize batchSize hp (b + 1) k 1 [] r
    [Event.collection] hok,
    batchLoop_fail_step H st nrBatches id payloadSize batchSize hp b _ _ _ _ e hfail]
  simp

/-- A worker with a valid configuration never panics, whatever the store answers. -/
theorem writeSomeBatches_no_panic (H : String → String) (st : Store)
    (nrBatches id payloadSize batchSize : Int) (r : Rand)
    (hn : 1 ≤ nrBatches) (hS : 0 ≤ batchSize) (hp : 0 ≤ payloadSize) :
    (writeSomeBatches H st nrBatches id payloadSize batchSize r).result ≠ Result.panicked := by
  unfold writeSomeBatches
  cases hopen : st.collectionErr with
  | some e => simp
  | none =>
    simp only
    rw [if_neg (by omega)]
    obtain ⟨h1, h2⟩ := batchLoop_no_panic H st nrBatches id payloadSize batchSize hp
      nrBatches.toNat 1 [] [] r [Event.collection]
    generalize batchLoop H st nrBatches id payloadSize batchSize nrBatches.toNat 1 [] [] r
      [Event.collection] = w at h1 h2
    cases hres : w.result with
    | ok =>
      simp only
      have hlen : w.times.length = nrBatches.toNat := by simpa using h2 hres
      obtain ⟨m, p90, p99, _, _, _, hsum⟩ := summarize_ok nrBatches w hn hlen
      rw [hsum]
      simp
    | error e => simp [hres]
    | panicked => exact absurd hres h1

theorem batchDocs_payload (H : String → String) (nrBatches id payloadSize batchSize i : Int)
    (n : Nat) : ∀ (j : Int) (r : Rand),
      ∀ d ∈ batchDocs H nrBatches id payloadSize batchSize i n j r,
        d.Payload.length = payloadSize.toNat := by
  induction n with
  | zero => intro j r d h; simp [batchDocs] at h
  | succ n ih =>
    intro j r d h
    simp only [batchDocs, List.mem_cons] at h
    rcases h with h | h
    · subst h
      simp [makeDoc, randomString_length]
    · exact ih _ _ d h

theorem okTimes_eq_map (st : Store) (a : Nat) (i : Int) :
    okTimes st a i = (List.range a).map (fun m : Nat => st.elapsed (i + m)) := by
  apply List.ext_getElem?
  intro m
  by_cases hm : m < a
  · rw [okTimes_getElem? st a i m hm, List.getElem?_map, List.getElem?_range hm]
    rfl
  · rw [List.getElem?_eq_none (by simp [okTimes_length]; omega),
      List.getElem?_eq_none (by simp; omega)]

/-! ## Properties of document generation -/

/-- C1: within one run, distinct positions `(w, i, j)` with `w` in
`[1, parallelism]`, `i` in `[1, B]`, `j` in `[1, S]` have distinct global
indices `(w*B + i - 1)*S + j`; when the largest index of the run fits in
`int64`, the integer computed by line 113 is that index, so the decimal strings
that are hashed are pairwise distinct, and so are the keys if the hash is
injective on the strings of the run. -/
theorem global_index_distinct (H : String → String) (P B S w i j w1 i1 j1 : Int)
    (hw : 1 ≤ w ∧ w ≤ P) (hi : 1 ≤ i ∧ i ≤ B) (hj : 1 ≤ j ∧ j ≤ S)
    (hw1 : 1 ≤ w1 ∧ w1 ≤ P) (hi1 : 1 ≤ i1 ∧ i1 ≤ B) (hj1 : 1 ≤ j1 ∧ j1 ≤ S) :
    (exactIndex w B i S j = exactIndex w1 B i1 S j1 → w = w1 ∧ i = i1 ∧ j = j1) ∧
    ((P + 1) * B * S < 2 ^ 63 →
      globalIndex w B i S j = exactIndex w B i S j ∧
      globalIndex w1 B i1 S j1 = exactIndex w1 B i1 S j1 ∧
      (decimal (globalIndex w B i S j) = decimal (globalIndex w1 B i1 S j1) →
        w = w1 ∧ i = i1 ∧ j = j1) ∧
      ((∀ a b c a1 b1 c1 : Int, (1 ≤ a ∧ a ≤ P) → (1 ≤ b ∧ b ≤ B) → (1 ≤ c ∧ c ≤ S) →
          (1 ≤ a1 ∧ a1 ≤ P) → (1 ≤ b1 ∧ b1 ≤ B) → (1 ≤ c1 ∧ c1 ≤ S) →
          H (decimal (globalIndex a B b S c)) = H (decimal (globalIndex a1 B b1 S c1)) →
          decimal (globalIndex a B b S c) = decimal (globalIndex a1 B b1 S c1)) →
        ∀ pay pay1 : List Nat,
          (makeDoc H w B i S j pay).Key = (makeDoc H w1 B i1 S j1 pay1).Key →
          w = w1 ∧ i = i1 ∧ j = j1)) := by
  have hinj : exactIndex w B i S j = exactIndex w1 B i1 S j1 → w = w1 ∧ i = i1 ∧ j = j1 :=
    exactIndex_injective hi.1 hi.2 hj.1 hj.2 hi1.1 hi1.2 hj1.1 hj1.2
  refine ⟨hinj, fun hfit => ?_⟩
  have hS : 1 ≤ S := le_trans hj.1 hj.2
  have e1 := globalIndex_eq_exactIndex hS hw.1 hw.2 hi.1 hi.2 hj.1 hj.2 hfit
  have e2 := globalIndex_eq_exactIndex hS hw1.1 hw1.2 hi1.1 hi1.2 hj1.1 hj1.2 hfit
  have hdec : decimal (globalIndex w B i S j) = decimal (globalIndex w1 B i1 S j1) →
      w = w1 ∧ i = i1 ∧ j = j1 := by
    intro h
    have := decimal_injective h
    rw [e1, e2] at this
    exact hinj this
  refine ⟨e1, e2, hdec, fun hH pay pay1 hkey => ?_⟩
  exact hdec (hH w i j w1 i1 j1 hw hi hj hw1 hi1 hj1 hkey)

theorem global_index_distinct_witness :
    (1 ≤ (1 : Int) ∧ (1 : Int) ≤ 2) ∧
    (globalIndex 1 3 2 5 3 = exactIndex 1 3 2 5 3 ∧
      globalIndex 2 3 1 5 4 = exactIndex 2 3 1 5 4) :=
  ⟨by decide,
    ((global_index_distinct id 2 3 5 1 2 3 2 1 4 (by decide) (by decide) (by decide)
        (by decide) (by decide) (by decide)).2 (by decide)).1,
    ((global_index_distinct id 2 3 5 1 2 3 2 1 4 (by decide) (by decide) (by decide)
        (by decide) (by decide) (by decide)).2 (by decide)).2.1⟩

/-- C6: for every length `>= 0` and every sequence of non-negative values of
the random source, `MakeRandomString(length)` returns exactly `length` bytes,
the byte at position `k` being `33 + (r k mod 90)`, hence in `33..122`; and
every document that the inner loop generates has a payload of exactly
`payloadSize` bytes. -/
theorem make_random_string_bytes (length : Int) (r : Rand) (hlen : 0 ≤ length)
    (hr : ∀ k : Nat, 0 ≤ r k) :
    (∃ (b : List Nat) (r1 : Rand),
      MakeRandomString length r = some (b, r1) ∧
      (b.length : Int) = length ∧
      (∀ x ∈ b, 33 ≤ x ∧ x ≤ 122) ∧
      (∀ k : Nat, (k : Int) < length → ∃ x, b[k]? = some x ∧ (x : Int) = 33 + r k % 90)) ∧
    (∀ (H : String → String) (nrBatches id batchSize i : Int) (docs0 : List Doc),
      ∃ (docs : List Doc) (r1 : Rand),
        fillDocs H nrBatches id length batchSize i batchSize.toNat 1 docs0 r =
          some (docs0 ++ docs, r1) ∧
        docs.length = batchSize.toNat ∧
        ∀ d ∈ docs, (d.Payload.length : Int) = length) := by
  constructor
  · refine ⟨randomString r length.toNat, dropRand r length.toNat,
      MakeRandomString_eq hlen r, ?_, ?_, ?_⟩
    · rw [randomString_length]
      omega
    · intro x hx
      obtain ⟨k, hk, hxk⟩ := List.getElem_of_mem hx
      rw [randomString_length] at hk
      have h1 := randomString_getElem? r length.toNat k hk
      rw [List.getElem?_eq_getElem (by rw [randomString_length]; exact hk)] at h1
      have h2 : x = randomByte (r k) := by
        rw [← hxk]
        exact Option.some.inj h1
      rw [h2]
      exact randomByte_range (hr k)
    · intro k hk
      exact ⟨randomByte (r k), randomString_getElem? r length.toNat k (by omega),
        randomByte_eq (hr k)⟩
  · intro H nrBatches id batchSize i docs0
    refine ⟨batchDocs H nrBatches id length batchSize i batchSize.toNat 1 r, _,
      fillDocs_eq H nrBatches id length batchSize i hlen _ _ _ _, batchDocs_length _ _ _ _ _ _ _ _ _,
      ?_⟩
    intro d hd
    rw [batchDocs_payload H nrBatches id length batchSize i _ _ _ d hd]
    omega

theorem make_random_string_bytes_witness :
    ∃ (b : List Nat) (r1 : Rand),
      MakeRandomString 4 (fun k => 100 * k + 7) = some (b, r1) ∧
      (b.length : Int) = 4 ∧
      (∀ x ∈ b, 33 ≤ x ∧ x ≤ 122) ∧
      (∀ k : Nat, (k : Int) < 4 → ∃ x, b[k]? = some x ∧
        (x : Int) = 33 + (fun k : Nat => (100 * k + 7 : Int)) k % 90) :=
  (make_random_string_bytes 4 (fun k => 100 * k + 7) (by decide)
    (fun k => by positivity)).1

/-- C5 (as amended): for every worker id, batch `i` and item `j` in
`[1, batchSize]`, the document generated at that position has
`key = H(decimal g)` and `sha = H("SHA" ++ decimal g)`, where `g` is
`(id*nrBatches + i - 1)*batchSize + j` evaluated in wrapping 64-bit signed
arithmetic; both fields are the same for any two random streams and payload
sizes; and `g` is the exact integer whenever `(id+1)*nrBatches*batchSize`
is below `2^63`. -/
theorem document_digests (H : String → String) (nrBatches id batchSize i j : Int)
    (payloadSize payloadSize1 : Int) (r r1 : Rand)
    (hp : 0 ≤ payloadSize) (hp1 : 0 ≤ payloadSize1) (hj : 1 ≤ j ∧ j ≤ batchSize) :
    (∃ (docs docs1 : List Doc) (s s1 : Rand) (d d1 : Doc),
      fillDocs H nrBatches id payloadSize batchSize i batchSize.toNat 1 [] r = some (docs, s) ∧
      fillDocs H nrBatches id payloadSize1 batchSize i batchSize.toNat 1 [] r1 =
        some (docs1, s1) ∧
      docs[(j - 1).toNat]? = some d ∧ docs1[(j - 1).toNat]? = some d1 ∧
      d.Key = H (decimal (globalIndex id nrBatches i batchSize j)) ∧
      d.Sha = H ("SHA" ++ decimal (globalIndex id nrBatches i batchSize j)) ∧
      d1.Key = d.Key ∧ d1.Sha = d.Sha) ∧
    (1 ≤ id → (1 ≤ i ∧ i ≤ nrBatches) → (id + 1) * nrBatches * batchSize < 2 ^ 63 →
      globalIndex id nrBatches i batchSize j = (id * nrBatches + i - 1) * batchSize + j) := by
  constructor
  · have hk : (j - 1).toNat < batchSize.toNat := by omega
    have hjk : (1 : Int) + ((j - 1).toNat : Int) = j := by omega
    have e := batchDocs_getElem? H nrBatches id payloadSize batchSize i batchSize.toNat 1 r
      (j - 1).toNat hk
    have e1 := batchDocs_getElem? H nrBatches id payloadSize1 batchSize i batchSize.toNat 1 r1
      (j - 1).toNat hk
    rw [hjk] at e e1
    refine ⟨_, _, _, _,
      makeDoc H id nrBatches i batchSize j
        (randomString (dropRand r ((j - 1).toNat * payloadSize.toNat)) payloadSize.toNat),
      makeDoc H id nrBatches i batchSize j
        (randomString (dropRand r1 ((j - 1).toNat * payloadSize1.toNat)) payloadSize1.toNat),
      fillDocs_eq H nrBatches id payloadSize batchSize i hp _ _ _ _,
      fillDocs_eq H nrBatches id payloadSize1 batchSize i hp1 _ _ _ _, ?_, ?_, rfl, rfl, rfl, rfl⟩
    · rw [List.nil_append]; exact e
    · rw [List.nil_append]; exact e1
  · intro hid hi hfit
    exact globalIndex_eq_exactIndex (le_trans hj.1 hj.2) hid (le_refl id) hi.1 hi.2 hj.1 hj.2 hfit

theorem document_digests_witness :
    (0 : Int) ≤ 3 ∧ globalIndex 2 3 1 5 4 = (2 * 3 + 1 - 1) * 5 + 4 :=
  ⟨by decide,
    (document_digests id 3 2 5 1 4 3 0 (fun k => k) (fun _ => 0) (by decide) (by decide)
      (by decide)).2 (by decide) (by decide) (by decide)⟩

/-- C5 (counterexample): for worker 2 of a run with `2^62` batches per worker
and batch size 1, the string hashed into the key of the first document is
`"-9223372036854775807"` (the hash is taken to be the identity, to show its
argument), which is not the decimal string of `(2*2^62 + 1 - 1)*1 + 1`. -/
theorem document_digest_wraps :
    (fillDocs id 4611686018427387904 2 0 1 1 1 1 [] (fun _ => 0)).map
        (fun q => q.1.map Doc.Key) = some ["-9223372036854775807"] ∧
    (fillDocs id 4611686018427387904 2 0 1 1 1 1 [] (fun _ => 0)).map
        (fun q => q.1.map Doc.Key) ≠ some [decimal (exactIndex 2 4611686018427387904 1 1 1)] ∧
    decimal (exactIndex 2 4611686018427387904 1 1 1) = "9223372036854775809" := by
  decide

/-! ## Properties of one worker -/

/-- C2: a worker that opens the collection, with `nrBatches >= 1`,
`batchSize >= 1` and a non-negative payload size, and whose every submission
succeeds, returns no error; it performs exactly `nrBatches` submissions, the
one for batch `i` being the `i`-th and holding exactly the `batchSize`
documents of items `1..batchSize` of batch `i`, in order; it records exactly
`nrBatches` samples, the measured durations of the batches; and the number of
documents submitted is `nrBatches * batchSize`. -/
theorem worker_all_batches_succeed (H : String → String) (st : Store)
    (nrBatches id payloadSize batchSize : Int) (r : Rand)
    (hopen : st.collectionErr = none) (hn : 1 ≤ nrBatches) (hS : 1 ≤ batchSize)
    (hp : 0 ≤ payloadSize)
    (hall : ∀ i : Int, 1 ≤ i → i ≤ nrBatches → st.createErr i = none) :
    (writeSomeBatches H st nrBatches id payloadSize batchSize r).result = Result.ok ∧
    ((submissions (writeSomeBatches H st nrBatches id payloadSize batchSize r).events).length
      : Int) = nrBatches ∧
    (∀ i : Int, 1 ≤ i → i ≤ nrBatches →
      ∃ batch : List Doc,
        (submissions (writeSomeBatches H st nrBatches id payloadSize batchSize r).events)[
          (i - 1).toNat]? = some batch ∧
        (batch.length : Int) = batchSize ∧
        ∀ j : Int, 1 ≤ j → j ≤ batchSize →
          ∃ pay : List Nat, batch[(j - 1).toNat]? =
            some (makeDoc H id nrBatches i batchSize j pay)) ∧
    (((writeSomeBatches H st nrBatches id payloadSize batchSize r).times.length : Int) =
      nrBatches ∧
      List.Perm (writeSomeBatches H st nrBatches id payloadSize batchSize r).times
        ((List.range nrBatches.toNat).map (fun m : Nat => st.elapsed (1 + m)))) ∧
    ((((submissions (writeSomeBatches H st nrBatches id payloadSize batchSize r).events).map
      List.length).sum : Nat) : Int) = nrBatches * batchSize := by
  have hall1 : ∀ m : Nat, m < nrBatches.toNat → st.createErr (1 + m) = none :=
    fun m hm => hall _ (by omega) (by omega)
  have hw := writeSomeBatches_all_ok H st nrBatches id payloadSize batchSize r hopen
    (by omega) hp hall1
  obtain ⟨m, p90, p99, _, _, _, hsum⟩ := summarize_ok nrBatches
    ⟨Event.collection :: okEvents H nrBatches id payloadSize batchSize nrBatches.toNat 1 r,
      okTimes st nrBatches.toNat 1, Result.ok⟩ hn (okTimes_length _ _ _)
  rw [hw, hsum]
  have hsub : submissions
      (Event.collection :: okEvents H nrBatches id payloadSize batchSize nrBatches.toNat 1 r ++
        [Event.lock, Event.print (Line.times nrBatches m p90 p99
          (wrap64 ((sumDurations (sortDurations (okTimes st nrBatches.toNat 1))).tdiv
            nrBatches))), Event.unlock]) =
      submissions (okEvents H nrBatches id payloadSize batchSize nrBatches.toNat 1 r) := by
    rw [List.cons_append]
    simp [submissions, List.filterMap_cons, List.filterMap_append]
  dsimp only
  simp only [hsub]
  refine ⟨?_, ?_, ?_, ⟨?_, ?_⟩, ?_⟩
  · trivial
  · rw [submissions_okEvents_length]
    omega
  · intro i hi1 hi2
    refine ⟨_, submissions_okEvents_getElem? H nrBatches id payloadSize batchSize _ 1 r
      (i - 1).toNat (by omega), ?_, ?_⟩
    · rw [batchOf, batchDocs_length]
      omega
    · intro j hj1 hj2
      have e := batchDocs_getElem? H nrBatches id payloadSize batchSize
        (1 + ((i - 1).toNat : Int)) batchSize.toNat 1
        (dropRand r ((i - 1).toNat * (batchSize.toNat * payloadSize.toNat)))
        (j - 1).toNat (by omega)
      rw [show (1 : Int) + ((j - 1).toNat : Int) = j by omega,
        show (1 : Int) + ((i - 1).toNat : Int) = i by omega] at e
      rw [show (1 : Int) + ((i - 1).toNat : Int) = i by omega]
      exact ⟨_, e⟩
  · rw [sortDurations_length, okTimes_length]
    omega
  · rw [← okTimes_eq_map]
    exact List.perm_insertionSort _ _
  · rw [submissions_okEvents_sum]
    push_cast
    rw [Int.toNat_of_nonneg (by omega), Int.toNat_of_nonneg (by omega)]

theorem worker_all_batches_succeed_witness :
    (writeSomeBatches id ⟨none, fun _ => none, fun i => 100 - i⟩ 3 1 2 5
      (fun k => k)).result = Result.ok :=
  (worker_all_batches_succeed id ⟨none, fun _ => none, fun i => 100 - i⟩ 3 1 2 5
    (fun k => k) rfl (by decide) (by decide) (by decide) (fun _ _ _ => rfl)).1

/-- What a worker leaves behind when every submission succeeds. -/
theorem writeSomeBatches_ok_trace (H : String → String) (st : Store)
    (nrBatches id payloadSize batchSize : Int) (r : Rand)
    (hopen : st.collectionErr = none) (hn : 1 ≤ nrBatches) (hS : 0 ≤ batchSize)
    (hp : 0 ≤ payloadSize)
    (hall : ∀ i : Int, 1 ≤ i → i ≤ nrBatches → st.createErr i = none) :
    ∃ m p90 p99 : Int,
      index? (sortDurations (okTimes st nrBatches.toNat 1)) (percentileIndex 1 2 nrBatches) =
        some m ∧
      index? (sortDurations (okTimes st nrBatches.toNat 1)) (percentileIndex 9 10 nrBatches) =
        some p90 ∧
      index? (sortDurations (okTimes st nrBatches.toNat 1)) (percentileIndex 99 100 nrBatches) =
        some p99 ∧
      writeSomeBatches H st nrBatches id payloadSize batchSize r =
        ⟨Event.collection :: okEvents H nrBatches id payloadSize batchSize nrBatches.toNat 1 r ++
            [Event.lock,
              Event.print (Line.times nrBatches m p90 p99
                (wrap64 ((sumDurations (sortDurations (okTimes st nrBatches.toNat 1))).tdiv
                  nrBatches))),
              Event.unlock],
          sortDurations (okTimes st nrBatches.toNat 1), Result.ok⟩ := by
  have hall1 : ∀ m : Nat, m < nrBatches.toNat → st.createErr (1 + m) = none :=
    fun m hm => hall _ (by omega) (by omega)
  have hw := writeSomeBatches_all_ok H st nrBatches id payloadSize batchSize r hopen hS hp hall1
  obtain ⟨m, p90, p99, h1, h2, h3, hsum⟩ := summarize_ok nrBatches
    ⟨Event.collection :: okEvents H nrBatches id payloadSize batchSize nrBatches.toNat 1 r,
      okTimes st nrBatches.toNat 1, Result.ok⟩ hn (okTimes_length _ _ _)
  exact ⟨m, p90, p99, h1, h2, h3, by rw [hw, hsum]⟩

theorem submissions_ok_trace (H : String → String) (nrBatches id payloadSize batchSize : Int)
    (a : Nat) (i : Int) (r : Rand) (l : Line) :
    submissions (Event.collection :: okEvents H nrBatches id payloadSize batchSize a i r ++
        [Event.lock, Event.print l, Event.unlock]) =
      submissions (okEvents H nrBatches id payloadSize batchSize a i r) := by
  rw [List.cons_append]
  simp [submissions, List.filterMap_cons, List.filterMap_append]

/-! ## Mutex bookkeeping -/

theorem heldAfter_append (h : Bool) (a b : List Event) :
    heldAfter h (a ++ b) = heldAfter (heldAfter h a) b := by
  simp [heldAfter, List.foldl_append]

theorem flagWritesUnlocked_append (a : List Event) :
    ∀ (h : Bool) (b : List Event),
      flagWritesUnlocked h (a ++ b) =
        (flagWritesUnlocked h a && flagWritesUnlocked (heldAfter h a) b) := by
  induction a with
  | nil => intro h b; simp [flagWritesUnlocked, heldAfter]
  | cons e es ih =>
    intro h b
    show ((if e = Event.setHaveError then !h else true) &&
        flagWritesUnlocked (lockStep h e) (es ++ b)) =
      (((if e = Event.setHaveError then !h else true) &&
        flagWritesUnlocked (lockStep h e) es) &&
        flagWritesUnlocked (heldAfter (lockStep h e) es) b)
    rw [ih, Bool.and_assoc]

theorem flagWritesUnlocked_of_not_mem (a : List Event) :
    ∀ h : Bool, Event.setHaveError ∉ a → flagWritesUnlocked h a = true := by
  induction a with
  | nil => intro h _; rfl
  | cons e es ih =>
    intro h hm
    simp only [List.mem_cons, not_or] at hm
    have he : ¬ e = Event.setHaveError := fun x => hm.1 x.symm
    simp [flagWritesUnlocked, he, ih _ hm.2]

theorem quiet_append {a b : List Event} (ha : quiet a) (hb : quiet b) : quiet (a ++ b) := by
  refine ⟨?_, ?_⟩
  · simp only [List.mem_append, not_or]
    exact ⟨ha.1, hb.1⟩
  · rw [heldAfter_append, ha.2, hb.2]

theorem quiet_progressEvents (i id : Int) : quiet (progressEvents i id) := by
  unfold progressEvents
  split
  · exact ⟨by simp, rfl⟩
  · exact ⟨by simp, rfl⟩

theorem batchLoop_quiet (H : String → String) (st : Store)
    (nrBatches id payloadSize batchSize : Int) (n : Nat) :
    ∀ (i : Int) (docs : List Doc) (times : List Int) (r : Rand) (evs : List Event),
      quiet evs →
      quiet (batchLoop H st nrBatches id payloadSize batchSize n i docs times r evs).events := by
  induction n with
  | zero => intro i docs times r evs h; exact h
  | succ n ih =>
    intro i docs times r evs h
    simp only [batchLoop]
    cases hf : fillDocs H nrBatches id payloadSize batchSize i batchSize.toNat 1 docs r with
    | none => exact h
    | some q =>
      obtain ⟨docs1, r1⟩ := q
      simp only
      cases hc : st.createErr i with
      | some e => exact quiet_append h ⟨by simp, rfl⟩
      | none =>
        simp only
        apply ih
        exact quiet_append (quiet_append h ⟨by simp, rfl⟩) (quiet_progressEvents i id)

theorem writeSomeBatches_no_flag_write (H : String → String) (st : Store)
    (nrBatches id payloadSize batchSize : Int) (r : Rand) :
    Event.setHaveError ∉ (writeSomeBatches H st nrBatches id payloadSize batchSize r).events ∧
    (∀ e, (writeSomeBatches H st nrBatches id payloadSize batchSize r).result = Result.error e →
      heldAfter false (writeSomeBatches H st nrBatches id payloadSize batchSize r).events
        = false) := by
  unfold writeSomeBatches
  cases hopen : st.collectionErr with
  | some e => exact ⟨by simp, fun _ _ => rfl⟩
  | none =>
    simp only
    split
    · exact ⟨by simp, fun _ _ => rfl⟩
    · have hq := batchLoop_quiet H st nrBatches id payloadSize batchSize nrBatches.toNat 1 [] []
        r [Event.collection] ⟨by simp, rfl⟩
      generalize batchLoop H st nrBatches id payloadSize batchSize nrBatches.toNat 1 [] [] r
        [Event.collection] = w at hq
      cases hres : w.result with
      | ok =>
        simp only
        unfold summarize
        simp only
        split
        · split
          · exact ⟨by simp [hq.1], fun e he => by simp at he⟩
          · exact ⟨by simp [hq.1], fun e he => by simp at he⟩
        · exact ⟨by simp [hq.1], fun e he => by simp at he⟩
      | error e => simp only [hres]; exact ⟨hq.1, fun _ _ => hq.2⟩
      | panicked => simp only [hres]; exact ⟨hq.1, fun _ _ => hq.2⟩

/-! ## The dispatch loop and the run as a whole -/

theorem dispatchLoop_eq (H : String → String) (env : Env)
    (number startDelay payloadSize batchSize : Int) (n : Nat) :
    ∀ (i : Int) (evs : List Event) (rs : List (List Event × Result)),
      dispatchLoop H env number startDelay payloadSize batchSize n i evs rs =
        (evs ++ dispatchEvents (mul64 startDelay 1000000) n i,
         rs ++ routinesFrom H env number payloadSize batchSize n i) := by
  induction n with
  | zero => intro i evs rs; simp [dispatchLoop, dispatchEvents, routinesFrom]
  | succ n ih =>
    intro i evs rs
    simp [dispatchLoop, dispatchEvents, routinesFrom, ih]

theorem routinesFrom_length (H : String → String) (env : Env)
    (number payloadSize batchSize : Int) (n : Nat) :
    ∀ i : Int, (routinesFrom H env number payloadSize batchSize n i).length = n := by
  induction n with
  | zero => intro i; rfl
  | succ n ih => intro i; simp [routinesFrom, ih]

theorem mem_routinesFrom (H : String → String) (env : Env)
    (number payloadSize batchSize : Int) (n : Nat) :
    ∀ (i : Int) (t : List Event × Result),
      t ∈ routinesFrom H env number payloadSize batchSize n i ↔
        ∃ m : Nat, m < n ∧ t = goRoutine H env number payloadSize batchSize (i + m) := by
  induction n with
  | zero => intro i t; simp [routinesFrom]
  | succ n ih =>
    intro i t
    simp only [routinesFrom, List.mem_cons, ih]
    constructor
    · rintro (h | ⟨m, hm, h⟩)
      · exact ⟨0, by omega, by simpa using h⟩
      · refine ⟨m + 1, by omega, ?_⟩
        rw [h]
        congr 1
        push_cast
        ring
    · rintro ⟨m, hm, h⟩
      cases m with
      | zero => left; simpa using h
      | succ m =>
        right
        refine ⟨m, by omega, ?_⟩
        rw [h]
        congr 1
        push_cast
        ring

theorem routinesFrom_sum (H : String → String) (env : Env)
    (number payloadSize batchSize : Int) (f : List Event × Result → Nat) (c : Nat) (n : Nat) :
    ∀ i : Int,
      (∀ m : Nat, m < n → f (goRoutine H env number payloadSize batchSize (i + m)) = c) →
      ((routinesFrom H env number payloadSize batchSize n i).map f).sum = n * c := by
  induction n with
  | zero => intro i _; simp [routinesFrom]
  | succ n ih =>
    intro i h
    have h0 : f (goRoutine H env number payloadSize batchSize i) = c := by
      simpa using h 0 (by omega)
    have hrest : ∀ m : Nat, m < n →
        f (goRoutine H env number payloadSize batchSize (i + 1 + m)) = c := by
      intro m hm
      have := h (m + 1) (by omega)
      rw [show i + 1 + (m : Int) = i + ((m + 1 : Nat) : Int) by push_cast; ring]
      exact this
    simp only [routinesFrom, List.map_cons, List.sum_cons, h0, ih (i + 1) hrest]
    ring

theorem mem_dispatchEvents_go (d : Int) (n : Nat) :
    ∀ (i : Int) (m : Nat), m < n → Event.go (i + m) ∈ dispatchEvents d n i := by
  induction n with
  | zero => intro i m hm; omega
  | succ n ih =>
    intro i m hm
    cases m with
    | zero => simp [dispatchEvents]
    | succ m =>
      simp only [dispatchEvents, List.mem_cons]
      right; right; right
      have := ih (i + 1) m (by omega)
      rw [show i + 1 + (m : Int) = i + ((m + 1 : Nat) : Int) by push_cast; ring] at this
      exact this

theorem dispatchEvents_count_sleep (d : Int) (n : Nat) :
    ∀ i : Int, (dispatchEvents d n i).count (Event.sleep d) = n := by
  induction n with
  | zero => intro i; rfl
  | succ n ih =>
    intro i
    simp [dispatchEvents, List.count_cons, ih]

theorem reportedTotal_dispatchEvents (d : Int) (n : Nat) :
    ∀ (i : Int) (rest : List Event),
      reportedTotal (dispatchEvents d n i ++ rest) = reportedTotal rest := by
  induction n with
  | zero => intro i rest; rfl
  | succ n ih =>
    intro i rest
    simp only [dispatchEvents, List.cons_append, reportedTotal]
    exact ih (i + 1) rest

theorem goRoutine_result (H : String → String) (env : Env)
    (number payloadSize batchSize i : Int) :
    (goRoutine H env number payloadSize batchSize i).2 =
      (writeSomeBatches H (env.store i) number i payloadSize batchSize (env.rand i)).result := by
  unfold goRoutine
  simp only
  split <;> rename_i h <;> simp [h]

theorem parallel_routines (H : String → String) (env : Env)
    (parallelism number startDelay payloadSize batchSize : Int) :
    (writeSomeBatchesParallel H env parallelism number startDelay payloadSize batchSize).routines
      = routinesFrom H env number payloadSize batchSize parallelism.toNat 1 := by
  unfold writeSomeBatchesParallel
  simp only [dispatchLoop_eq, List.nil_append]
  split
  · rfl
  · split <;> rfl

theorem parallel_haveError_iff (H : String → String) (env : Env)
    (parallelism number startDelay payloadSize batchSize : Int) :
    (writeSomeBatchesParallel H env parallelism number startDelay payloadSize
        batchSize).haveError = true ↔
      ∃ m : Nat, m < parallelism.toNat ∧ ∃ e,
        (writeSomeBatches H (env.store (1 + m)) number (1 + m) payloadSize batchSize
          (env.rand (1 + m))).result = Result.error e := by
  have key : (writeSomeBatchesParallel H env parallelism number startDelay payloadSize
        batchSize).haveError =
      (routinesFrom H env number payloadSize batchSize parallelism.toNat 1).any
        (fun t => match t.2 with
          | Result.error _ => true
          | _ => false) := by
    unfold writeSomeBatchesParallel
    simp only [dispatchLoop_eq, List.nil_append]
    split
    · rfl
    · split <;> rfl
  rw [key, List.any_eq_true]
  constructor
  · rintro ⟨t, ht, h⟩
    obtain ⟨m, hm, rfl⟩ := (mem_routinesFrom _ _ _ _ _ _ _ _).mp ht
    rw [goRoutine_result] at h
    refine ⟨m, hm, ?_⟩
    split at h
    · rename_i e he; exact ⟨e, he⟩
    · simp at h
  · rintro ⟨m, hm, e, he⟩
    refine ⟨_, (mem_routinesFrom _ _ _ _ _ _ _ _).mpr ⟨m, hm, rfl⟩, ?_⟩
    rw [goRoutine_result, he]

/-- With a valid configuration no goroutine panics, and the caller gets past
`wg.Wait()`: it prints the total, and then fails exactly when the flag is set. -/
theorem parallel_valid (H : String → String) (env : Env)
    (parallelism number startDelay payloadSize batchSize : Int)
    (hn : 1 ≤ number) (hS : 0 ≤ batchSize) (hp : 0 ≤ payloadSize) :
    (writeSomeBatchesParallel H env parallelism number startDelay payloadSize batchSize).main =
      dispatchEvents (mul64 startDelay 1000000) parallelism.toNat 1 ++
        (Event.wgWait ::
          Event.print (Line.totalWritten (totalDocuments parallelism number batchSize)) ::
          (if (writeSomeBatchesParallel H env parallelism number startDelay payloadSize
              batchSize).haveError then [Event.print Line.errorInWriteSomeBatches] else [])) ∧
    (writeSomeBatchesParallel H env parallelism number startDelay payloadSize batchSize).result =
      (if (writeSomeBatchesParallel H env parallelism number startDelay payloadSize
          batchSize).haveError then Result.error "Error in writeSomeBatches." else Result.ok) := by
  have hnp : (routinesFrom H env number payloadSize batchSize parallelism.toNat 1).any
      (fun t => decide (t.2 = Result.panicked)) = false := by
    rw [List.any_eq_false]
    intro t ht
    obtain ⟨m, _, rfl⟩ := (mem_routinesFrom _ _ _ _ _ _ _ _).mp ht
    rw [goRoutine_result]
    simpa using writeSomeBatches_no_panic H _ number _ payloadSize batchSize _ hn hS hp
  unfold writeSomeBatchesParallel
  simp only [dispatchLoop_eq, List.nil_append, hnp]
  simp only [Bool.false_eq_true, if_false]
  split <;> rename_i h
  · simp only [Bool.not_eq_true', Bool.not_eq_eq_eq_not, Bool.not_true] at h
    simp [h]
  · simp only [Bool.not_eq_true', Bool.not_eq_eq_eq_not, Bool.not_true, Bool.not_eq_false] at h
    simp [h]

theorem mem_okTimes (st : Store) (a : Nat) (i x : Int) :
    x ∈ okTimes st a i ↔ ∃ m : Nat, m < a ∧ x = st.elapsed (i + m) := by
  rw [okTimes_eq_map]
  simp only [List.mem_map, List.mem_range]
  constructor
  · rintro ⟨m, hm, h⟩; exact ⟨m, hm, h.symm⟩
  · rintro ⟨m, hm, h⟩; exact ⟨m, hm, h.symm⟩

theorem index?_some {l : List Int} {k x : Int} (h : index? l k = some x) :
    0 ≤ k ∧ l[k.toNat]? = some x ∧ x ∈ l := by
  unfold index? at h
  split at h
  · simp at h
  · obtain ⟨hk, hx⟩ := List.getElem?_eq_some_iff.mp h
    exact ⟨by omega, h, hx ▸ List.getElem_mem hk⟩

theorem goRoutine_submissions (H : String → String) (env : Env)
    (number payloadSize batchSize i : Int) :
    submissions (goRoutine H env number payloadSize batchSize i).1 =
      submissions
        (writeSomeBatches H (env.store i) number i payloadSize batchSize (env.rand i)).events := by
  unfold goRoutine
  simp only
  split <;> simp [submissions, List.filterMap_cons, List.filterMap_append]

theorem goRoutine_last (H : String → String) (env : Env)
    (number payloadSize batchSize i : Int) :
    (goRoutine H env number payloadSize batchSize i).1.getLast? = some Event.wgDone := by
  unfold goRoutine
  simp only
  split
  · exact (List.getLast?_append_cons (Event.print Line.startingGoRoutine :: _) _ _).trans rfl
  · exact (List.getLast?_append_cons (Event.print Line.startingGoRoutine :: _) _ _).trans rfl
  · exact (List.getLast?_append_cons (Event.print Line.startingGoRoutine :: _) _ _).trans rfl

/-- C4: for a worker that completed `n = nrBatches >= 1` batches, the three
indices `floor(0.5 n)`, `floor(0.9 n)`, `floor(0.99 n)` (the products taken
exactly) lie in `[0, n-1]` and are non-decreasing; the worker does not panic;
the values printed as median, 90th and 99th percentile are the entries of the
ascending samples at these indices, they satisfy `median <= p90 <= p99`, each
is one of the measured durations, and for `n = 1` all three are the single
sample. -/
theorem percentile_indices_valid (H : String → String) (st : Store)
    (nrBatches id payloadSize batchSize : Int) (r : Rand)
    (hopen : st.collectionErr = none) (hn : 1 ≤ nrBatches) (hS : 0 ≤ batchSize)
    (hp : 0 ≤ payloadSize)
    (hall : ∀ i : Int, 1 ≤ i → i ≤ nrBatches → st.createErr i = none) :
    (0 ≤ percentileIndex 1 2 nrBatches ∧
      percentileIndex 1 2 nrBatches ≤ percentileIndex 9 10 nrBatches ∧
      percentileIndex 9 10 nrBatches ≤ percentileIndex 99 100 nrBatches ∧
      percentileIndex 99 100 nrBatches ≤ nrBatches - 1) ∧
    (percentileIndex 1 2 nrBatches = ⌊(1 / 2 : ℚ) * (nrBatches : ℚ)⌋ ∧
      percentileIndex 9 10 nrBatches = ⌊(9 / 10 : ℚ) * (nrBatches : ℚ)⌋ ∧
      percentileIndex 99 100 nrBatches = ⌊(99 / 100 : ℚ) * (nrBatches : ℚ)⌋) ∧
    ∃ m p90 p99 avg : Int,
      (writeSomeBatches H st nrBatches id payloadSize batchSize r).result = Result.ok ∧
      (writeSomeBatches H st nrBatches id payloadSize batchSize r).times =
        sortDurations ((List.range nrBatches.toNat).map (fun k : Nat => st.elapsed (1 + k))) ∧
      (((writeSomeBatches H st nrBatches id payloadSize batchSize r).times.length : Int) =
        nrBatches) ∧
      index? (writeSomeBatches H st nrBatches id payloadSize batchSize r).times
        (percentileIndex 1 2 nrBatches) = some m ∧
      index? (writeSomeBatches H st nrBatches id payloadSize batchSize r).times
        (percentileIndex 9 10 nrBatches) = some p90 ∧
      index? (writeSomeBatches H st nrBatches id payloadSize batchSize r).times
        (percentileIndex 99 100 nrBatches) = some p99 ∧
      Event.print (Line.times nrBatches m p90 p99 avg) ∈
        (writeSomeBatches H st nrBatches id payloadSize batchSize r).events ∧
      m ≤ p90 ∧ p90 ≤ p99 ∧
      (∃ i : Int, 1 ≤ i ∧ i ≤ nrBatches ∧ m = st.elapsed i) ∧
      (∃ i : Int, 1 ≤ i ∧ i ≤ nrBatches ∧ p90 = st.elapsed i) ∧
      (∃ i : Int, 1 ≤ i ∧ i ≤ nrBatches ∧ p99 = st.elapsed i) ∧
      (nrBatches = 1 → m = st.elapsed 1 ∧ p90 = st.elapsed 1 ∧ p99 = st.elapsed 1) := by
  obtain ⟨b0, b1, b2, b3⟩ := percentile_bounds hn
  refine ⟨⟨b0, b1, b2, b3⟩, ⟨?_, ?_, ?_⟩, ?_⟩
  · have := percentileIndex_eq_floor 1 2 nrBatches (by decide) (by omega)
    simpa using this
  · have := percentileIndex_eq_floor 9 10 nrBatches (by decide) (by omega)
    simpa using this
  · have := percentileIndex_eq_floor 99 100 nrBatches (by decide) (by omega)
    simpa using this
  obtain ⟨m, p90, p99, h1, h2, h3, hw⟩ := writeSomeBatches_ok_trace H st nrBatches id payloadSize
    batchSize r hopen hn hS hp hall
  obtain ⟨_, g1, m1⟩ := index?_some h1
  obtain ⟨_, g2, m2⟩ := index?_some h2
  obtain ⟨_, g3, m3⟩ := index?_some h3
  have hmem : ∀ x : Int, x ∈ sortDurations (okTimes st nrBatches.toNat 1) →
      ∃ i : Int, 1 ≤ i ∧ i ≤ nrBatches ∧ x = st.elapsed i := by
    intro x hx
    obtain ⟨k, hk, hxk⟩ := (mem_okTimes st _ 1 x).mp ((sortDurations_mem _ x).mp hx)
    exact ⟨1 + k, by omega, by omega, hxk⟩
  have hsorted := sortDurations_sorted (okTimes st nrBatches.toNat 1)
  refine ⟨m, p90, p99,
    wrap64 ((sumDurations (sortDurations (okTimes st nrBatches.toNat 1))).tdiv nrBatches), ?_⟩
  rw [hw]
  dsimp only
  refine ⟨rfl, by rw [okTimes_eq_map], ?_, h1, h2, h3, by simp,
    sorted_getElem?_le hsorted g1 g2 (by omega), sorted_getElem?_le hsorted g2 g3 (by omega),
    hmem m m1, hmem p90 m2, hmem p99 m3, ?_⟩
  · rw [sortDurations_length, okTimes_length]
    omega
  · intro h1n
    obtain ⟨i1, a1, a2, a3⟩ := hmem m m1
    obtain ⟨i2, c1, c2, c3⟩ := hmem p90 m2
    obtain ⟨i3, d1, d2, d3⟩ := hmem p99 m3
    have e1 : i1 = 1 := by omega
    have e2 : i2 = 1 := by omega
    have e3 : i3 = 1 := by omega
    subst e1 e2 e3
    exact ⟨a3, c3, d3⟩

theorem percentile_indices_valid_witness :
    0 ≤ percentileIndex 1 2 1 ∧
      percentileIndex 1 2 1 ≤ percentileIndex 9 10 1 ∧
      percentileIndex 9 10 1 ≤ percentileIndex 99 100 1 ∧
      percentileIndex 99 100 1 ≤ 1 - 1 :=
  (percentile_indices_valid id ⟨none, fun _ => none, fun i => 100 - i⟩ 1 1 0 1
    (fun k => k) rfl (by decide) (by decide) (by decide) (fun _ _ _ => rfl)).1

/-! ## Properties of the run -/

/-- C3: if the first failing submission of worker `w` is batch `k`
(`1 <= k <= nrBatches`), that worker performs exactly `k` submissions, the
batches `1..k` in order, has recorded exactly `k - 1` samples, returns that
error and prints no statistics; the run then has its failure flag set and
returns an error, which it does after `wg.Wait()`, every goroutine having run
to its `wg.Done()`. -/
theorem worker_first_failure (H : String → String) (env : Env)
    (parallelism number startDelay payloadSize batchSize w k : Int) (e : String)
    (hS : 1 ≤ batchSize) (hp : 0 ≤ payloadSize)
    (hw : 1 ≤ w ∧ w ≤ parallelism) (hk : 1 ≤ k ∧ k ≤ number)
    (hopen : (env.store w).collectionErr = none)
    (hok : ∀ i : Int, 1 ≤ i → i < k → (env.store w).createErr i = none)
    (hfail : (env.store w).createErr k = some e) :
    (((submissions (writeSomeBatches H (env.store w) number w payloadSize batchSize
        (env.rand w)).events).length : Int) = k ∧
      (∀ i : Int, 1 ≤ i → i ≤ k → ∃ batch : List Doc,
        (submissions (writeSomeBatches H (env.store w) number w payloadSize batchSize
          (env.rand w)).events)[(i - 1).toNat]? = some batch ∧
        ∀ j : Int, 1 ≤ j → j ≤ batchSize →
          ∃ pay : List Nat, batch[(j - 1).toNat]? =
            some (makeDoc H w number i batchSize j pay)) ∧
      ((writeSomeBatches H (env.store w) number w payloadSize batchSize
        (env.rand w)).times.length : Int) = k - 1 ∧
      (writeSomeBatches H (env.store w) number w payloadSize batchSize (env.rand w)).result =
        Result.error e ∧
      (∀ ev ∈ (writeSomeBatches H (env.store w) number w payloadSize batchSize
        (env.rand w)).events, isStatistics ev = false)) ∧
    ((writeSomeBatchesParallel H env parallelism number startDelay payloadSize
        batchSize).haveError = true ∧
      (writeSomeBatchesParallel H env parallelism number startDelay payloadSize
        batchSize).result = Result.error "Error in writeSomeBatches." ∧
      ((writeSomeBatchesParallel H env parallelism number startDelay payloadSize
        batchSize).routines.length : Int) = parallelism ∧
      (∀ t ∈ (writeSomeBatchesParallel H env parallelism number startDelay payloadSize
        batchSize).routines, t.1.getLast? = some Event.wgDone) ∧
      (writeSomeBatchesParallel H env parallelism number startDelay payloadSize
        batchSize).main =
        dispatchEvents (mul64 startDelay 1000000) parallelism.toNat 1 ++
          [Event.wgWait,
            Event.print (Line.totalWritten (totalDocuments parallelism number batchSize)),
            Event.print Line.errorInWriteSomeBatches]) := by
  have hn : 1 ≤ number := le_trans hk.1 hk.2
  have hwf := writeSomeBatches_first_failure H (env.store w) number w payloadSize batchSize
    (env.rand w) (k - 1).toNat e hopen (by omega) hp (by omega)
    (fun m hm => hok _ (by omega) (by omega))
    (by rw [show (1 : Int) + ((k - 1).toNat : Int) = k by omega]; exact hfail)
  have hflag : (writeSomeBatchesParallel H env parallelism number startDelay payloadSize
      batchSize).haveError = true := by
    rw [parallel_haveError_iff]
    refine ⟨(w - 1).toNat, by omega, e, ?_⟩
    rw [show (1 : Int) + ((w - 1).toNat : Int) = w by omega, hwf]
  obtain ⟨hmain, hres⟩ := parallel_valid H env parallelism number startDelay payloadSize
    batchSize hn (by omega) hp
  rw [hflag] at hmain hres
  refine ⟨?_, hflag, by simpa using hres, ?_, ?_, by simpa using hmain⟩
  · rw [hwf]
    dsimp only
    have hsub : submissions
        (Event.collection :: okEvents H number w payloadSize batchSize (k - 1).toNat 1
            (env.rand w) ++
          [Event.createDocuments (batchOf H number w payloadSize batchSize
              (1 + ((k - 1).toNat : Int))
              (dropRand (env.rand w) ((k - 1).toNat * (batchSize.toNat * payloadSize.toNat)))),
            Event.print (Line.couldNotWrite e)]) =
        submissions (okEvents H number w payloadSize batchSize (k - 1).toNat 1 (env.rand w)) ++
          [batchOf H number w payloadSize batchSize (1 + ((k - 1).toNat : Int))
              (dropRand (env.rand w)
                ((k - 1).toNat * (batchSize.toNat * payloadSize.toNat)))] := by
      rw [List.cons_append]
      simp [submissions, List.filterMap_cons, List.filterMap_append]
    have hitem : ∀ (i : Int) (s : Rand) (j : Int), 1 ≤ j → j ≤ batchSize →
        ∃ pay : List Nat, (batchOf H number w payloadSize batchSize i s)[(j - 1).toNat]? =
          some (makeDoc H w number i batchSize j pay) := by
      intro i s j hj1 hj2
      have e1 := batchDocs_getElem? H number w payloadSize batchSize i batchSize.toNat 1 s
        (j - 1).toNat (by omega)
      rw [show (1 : Int) + ((j - 1).toNat : Int) = j by omega] at e1
      exact ⟨_, e1⟩
    refine ⟨?_, ?_, ?_, rfl, ?_⟩
    · rw [hsub, List.length_append, submissions_okEvents_length]
      simp only [List.length_singleton]
      omega
    · intro i hi1 hi2
      rw [hsub]
      by_cases hik : i < k
      · refine ⟨batchOf H number w payloadSize batchSize i (dropRand (env.rand w)
          ((i - 1).toNat * (batchSize.toNat * payloadSize.toNat))), ?_, hitem _ _⟩
        rw [List.getElem?_append_left (by rw [submissions_okEvents_length]; omega),
          submissions_okEvents_getElem? H number w payloadSize batchSize _ 1 _ (i - 1).toNat
            (by omega),
          show (1 : Int) + ((i - 1).toNat : Int) = i by omega]
      · have hik2 : i = k := by omega
        subst hik2
        refine ⟨batchOf H number w payloadSize batchSize i (dropRand (env.rand w)
          ((i - 1).toNat * (batchSize.toNat * payloadSize.toNat))), ?_, hitem _ _⟩
        rw [List.getElem?_append_right (by rw [submissions_okEvents_length]),
          submissions_okEvents_length, Nat.sub_self,
          show (1 : Int) + ((i - 1).toNat : Int) = i by omega]
        rfl
    · rw [okTimes_length]
      omega
    · intro ev hev
      rw [List.cons_append, List.mem_cons, List.mem_append] at hev
      rcases hev with h | h | h
      · subst h; rfl
      · exact okEvents_no_statistics _ _ _ _ _ _ _ _ ev h
      · simp only [List.mem_cons, List.mem_singleton, List.not_mem_nil, or_false] at h
        rcases h with h | h <;> subst h <;> rfl
  · rw [parallel_routines, routinesFrom_length]
    omega
  · intro t ht
    rw [parallel_routines] at ht
    obtain ⟨m, _, rfl⟩ := (mem_routinesFrom _ _ _ _ _ _ _ _).mp ht
    exact goRoutine_last H env number payloadSize batchSize _

theorem worker_first_failure_witness :
    (writeSomeBatchesParallel id
      ⟨fun _ => ⟨none, fun i => if i = 2 then some "timeout" else none, fun _ => 7⟩,
        fun _ k => k⟩ 2 3 5 4 2).result = Result.error "Error in writeSomeBatches." :=
  (worker_first_failure id
    ⟨fun _ => ⟨none, fun i => if i = 2 then some "timeout" else none, fun _ => 7⟩,
      fun _ k => k⟩ 2 3 5 4 2 1 2 "timeout" (by decide) (by decide) (by decide) (by decide)
    rfl (fun i h1 h2 => if_neg (by omega)) rfl).2.2.1

theorem totalDocuments_exact {P n S : Int} (hP : 0 ≤ P) (hn : 1 ≤ n) (hS : 1 ≤ S)
    (hfit : P * n * S < 2 ^ 63) : totalDocuments P n S = P * n * S := by
  have h1 : 0 ≤ P * n := by positivity
  have h2 : P * n ≤ P * n * S := by nlinarith
  have h3 : 0 ≤ P * n * S := by positivity
  unfold totalDocuments mul64
  rw [wrap64_of_fits (x := P * n) (by omega) (by omega)]
  rw [wrap64_of_fits (x := P * n * S) (by omega) (by omega)]

/-- C7 (as amended): for every run with a valid configuration, whether or not a
worker failed, the total printed after the join is
`parallelism * number * batchSize` evaluated in wrapping 64-bit signed
arithmetic, which is the exact product when that is below `2^63` (30 for
2, 3, 5).  When every submission succeeds the run returns no error and the
documents submitted by all workers together number exactly the product; when a
worker fails on its first submission, it has recorded no sample, the same total
is printed and the run returns an error. -/
theorem reported_total (H : String → String) (env : Env)
    (parallelism number startDelay payloadSize batchSize : Int)
    (hP : 1 ≤ parallelism) (hn : 1 ≤ number) (hS : 1 ≤ batchSize) (hp : 0 ≤ payloadSize) :
    reportedTotal (writeSomeBatchesParallel H env parallelism number startDelay payloadSize
      batchSize).main = some (totalDocuments parallelism number batchSize) ∧
    (parallelism * number * batchSize < 2 ^ 63 →
      totalDocuments parallelism number batchSize = parallelism * number * batchSize) ∧
    totalDocuments 2 3 5 = 30 ∧
    ((∀ w : Int, 1 ≤ w → w ≤ parallelism →
        (env.store w).collectionErr = none ∧
        ∀ i : Int, 1 ≤ i → i ≤ number → (env.store w).createErr i = none) →
      (writeSomeBatchesParallel H env parallelism number startDelay payloadSize
        batchSize).result = Result.ok ∧
      ((((writeSomeBatchesParallel H env parallelism number startDelay payloadSize
        batchSize).routines.map (fun t => ((submissions t.1).map List.length).sum)).sum : Nat)
        : Int) = parallelism * number * batchSize) ∧
    (∀ (w : Int) (e : String), 1 ≤ w → w ≤ parallelism →
      (env.store w).collectionErr = none → (env.store w).createErr 1 = some e →
      (writeSomeBatches H (env.store w) number w payloadSize batchSize (env.rand w)).times = [] ∧
      (writeSomeBatchesParallel H env parallelism number startDelay payloadSize
        batchSize).haveError = true ∧
      (writeSomeBatchesParallel H env parallelism number startDelay payloadSize
        batchSize).result = Result.error "Error in writeSomeBatches.") := by
  obtain ⟨hmain, hres⟩ := parallel_valid H env parallelism number startDelay payloadSize
    batchSize hn (by omega) hp
  refine ⟨?_, fun hfit => totalDocuments_exact (by omega) hn hS hfit, by decide, ?_, ?_⟩
  · rw [hmain, reportedTotal_dispatchEvents]
    rfl
  · intro hall
    have hflag : (writeSomeBatchesParallel H env parallelism number startDelay payloadSize
        batchSize).haveError = false := by
      rw [Bool.eq_false_iff]
      intro h
      obtain ⟨m, hm, e, he⟩ := (parallel_haveError_iff _ _ _ _ _ _ _).mp h
      obtain ⟨ho, hc⟩ := hall (1 + m) (by omega) (by omega)
      obtain ⟨_, _, _, _, _, _, hw⟩ := writeSomeBatches_ok_trace H (env.store (1 + m)) number
        (1 + m) payloadSize batchSize (env.rand (1 + m)) ho hn (by omega) hp hc
      rw [hw] at he
      simp at he
    refine ⟨by rw [hres, hflag]; rfl, ?_⟩
    rw [parallel_routines,
      routinesFrom_sum H env number payloadSize batchSize _ (number.toNat * batchSize.toNat)]
    · push_cast
      rw [Int.toNat_of_nonneg (by omega), Int.toNat_of_nonneg (by omega),
        Int.toNat_of_nonneg (by omega)]
      ring
    · intro m hm
      obtain ⟨ho, hc⟩ := hall (1 + m) (by omega) (by omega)
      obtain ⟨a, b, c, _, _, _, hw⟩ := writeSomeBatches_ok_trace H (env.store (1 + m)) number
        (1 + m) payloadSize batchSize (env.rand (1 + m)) ho hn (by omega) hp hc
      rw [goRoutine_submissions, hw]
      dsimp only
      rw [submissions_ok_trace, submissions_okEvents_sum]
  · intro w e hw1 hw2 ho hf
    have hwf := writeSomeBatches_first_failure H (env.store w) number w payloadSize batchSize
      (env.rand w) 0 e ho (by omega) hp (by omega) (fun m hm => by omega)
      (by simpa using hf)
    have hflag : (writeSomeBatchesParallel H env parallelism number startDelay payloadSize
        batchSize).haveError = true := by
      rw [parallel_haveError_iff]
      refine ⟨(w - 1).toNat, by omega, e, ?_⟩
      rw [show (1 : Int) + ((w - 1).toNat : Int) = w by omega, hwf]
    refine ⟨by rw [hwf]; rfl, hflag, by rw [hres, hflag]; rfl⟩

theorem reported_total_witness :
    reportedTotal (writeSomeBatchesParallel id
      ⟨fun _ => ⟨none, fun _ => none, fun _ => 7⟩, fun _ k => k⟩ 2 3 0 4 5).main =
      some (totalDocuments 2 3 5) :=
  (reported_total id ⟨fun _ => ⟨none, fun _ => none, fun _ => 7⟩, fun _ k => k⟩ 2 3 0 4 5
    (by decide) (by decide) (by decide) (by decide)).1

/-- C7 (counterexample): with parallelism 2, `2^62` batches per worker, batch
size 1 and a store without the collection, both workers fail at once and the
printed total is `-9223372036854775808`, not the product `2 * 2^62 * 1`. -/
theorem printed_total_wraps :
    reportedTotal (writeSomeBatchesParallel id
      ⟨fun _ => ⟨some "collection not found", fun _ => none, fun _ => 0⟩, fun _ _ => 0⟩
      2 4611686018427387904 0 0 1).main = some (-9223372036854775808) ∧
    reportedTotal (writeSomeBatchesParallel id
      ⟨fun _ => ⟨some "collection not found", fun _ => none, fun _ => 0⟩, fun _ _ => 0⟩
      2 4611686018427387904 0 0 1).main ≠ some (2 * 4611686018427387904 * 1) ∧
    (writeSomeBatchesParallel id
      ⟨fun _ => ⟨some "collection not found", fun _ => none, fun _ => 0⟩, fun _ _ => 0⟩
      2 4611686018427387904 0 0 1).result = Result.error "Error in writeSomeBatches." := by
  decide

/-- C8 (as amended): a collection that cannot be opened is detected inside the
worker, after the dispatch.  For every run with a valid configuration in which
opening fails for worker `w`: that worker prints its start line, makes no
submission, returns the error and sets the failure flag; the caller has slept
the start delay before each of the `parallelism` dispatches and has started
every worker; and the run returns its error only after `wg.Wait()`. -/
theorem collection_error_after_dispatch (H : String → String) (env : Env)
    (parallelism number startDelay payloadSize batchSize w : Int) (e : String)
    (hn : 1 ≤ number) (hS : 1 ≤ batchSize) (hp : 0 ≤ payloadSize)
    (hw : 1 ≤ w ∧ w ≤ parallelism)
    (hopen : (env.store w).collectionErr = some e) :
    goRoutine H env number payloadSize batchSize w =
      ([Event.print Line.startingGoRoutine, Event.collection,
        Event.print (Line.couldNotOpen e), Event.print (Line.writeSomeBatchesError e),
        Event.setHaveError, Event.lock, Event.print (Line.goRoutineDone w), Event.unlock,
        Event.wgDone], Result.error e) ∧
    goRoutine H env number payloadSize batchSize w ∈
      (writeSomeBatchesParallel H env parallelism number startDelay payloadSize
        batchSize).routines ∧
    submissions (goRoutine H env number payloadSize batchSize w).1 = [] ∧
    ((writeSomeBatchesParallel H env parallelism number startDelay payloadSize
      batchSize).routines.length : Int) = parallelism ∧
    (∀ i : Int, 1 ≤ i → i ≤ parallelism →
      Event.go i ∈ (writeSomeBatchesParallel H env parallelism number startDelay payloadSize
        batchSize).main) ∧
    (((writeSomeBatchesParallel H env parallelism number startDelay payloadSize
      batchSize).main.count (Event.sleep (mul64 startDelay 1000000)) : Nat) : Int) =
      parallelism ∧
    (writeSomeBatchesParallel H env parallelism number startDelay payloadSize batchSize).main =
      dispatchEvents (mul64 startDelay 1000000) parallelism.toNat 1 ++
        [Event.wgWait,
          Event.print (Line.totalWritten (totalDocuments parallelism number batchSize)),
          Event.print Line.errorInWriteSomeBatches] ∧
    (writeSomeBatchesParallel H env parallelism number startDelay payloadSize batchSize).result =
      Result.error "Error in writeSomeBatches." := by
  have hwr : writeSomeBatches H (env.store w) number w payloadSize batchSize (env.rand w) =
      ⟨[Event.collection, Event.print (Line.couldNotOpen e)], [], Result.error e⟩ := by
    unfold writeSomeBatches
    simp only [hopen]
  have hgo : goRoutine H env number payloadSize batchSize w =
      ([Event.print Line.startingGoRoutine, Event.collection,
        Event.print (Line.couldNotOpen e), Event.print (Line.writeSomeBatchesError e),
        Event.setHaveError, Event.lock, Event.print (Line.goRoutineDone w), Event.unlock,
        Event.wgDone], Result.error e) := by
    unfold goRoutine
    simp only [hwr]
    rfl
  have hflag : (writeSomeBatchesParallel H env parallelism number startDelay payloadSize
      batchSize).haveError = true := by
    rw [parallel_haveError_iff]
    refine ⟨(w - 1).toNat, by omega, e, ?_⟩
    rw [show (1 : Int) + ((w - 1).toNat : Int) = w by omega, hwr]
  obtain ⟨hmain, hres⟩ := parallel_valid H env parallelism number startDelay payloadSize
    batchSize hn (by omega) hp
  rw [hflag] at hmain hres
  have hmain1 : (writeSomeBatchesParallel H env parallelism number startDelay payloadSize
      batchSize).main =
      dispatchEvents (mul64 startDelay 1000000) parallelism.toNat 1 ++
        [Event.wgWait,
          Event.print (Line.totalWritten (totalDocuments parallelism number batchSize)),
          Event.print Line.errorInWriteSomeBatches] := by simpa using hmain
  refine ⟨hgo, ?_, ?_, ?_, ?_, ?_, hmain1, by simpa using hres⟩
  · rw [parallel_routines, mem_routinesFrom]
    exact ⟨(w - 1).toNat, by omega, by rw [show (1 : Int) + ((w - 1).toNat : Int) = w by omega]⟩
  · rw [hgo]
    simp [submissions, List.filterMap_cons]
  · rw [parallel_routines, routinesFrom_length]
    omega
  · intro i hi1 hi2
    rw [hmain1, List.mem_append]
    left
    have := mem_dispatchEvents_go (mul64 startDelay 1000000) parallelism.toNat 1 (i - 1).toNat
      (by omega)
    rw [show (1 : Int) + ((i - 1).toNat : Int) = i by omega] at this
    exact this
  · rw [hmain1, List.count_append, dispatchEvents_count_sleep]
    simp only [List.count_cons, List.count_nil]
    simp
    omega

theorem collection_error_after_dispatch_witness :
    (writeSomeBatchesParallel id
      ⟨fun _ => ⟨some "collection not found", fun _ => none, fun _ => 0⟩, fun _ _ => 0⟩
      2 3 5 4 5).result = Result.error "Error in writeSomeBatches." :=
  (collection_error_after_dispatch id
    ⟨fun _ => ⟨some "collection not found", fun _ => none, fun _ => 0⟩, fun _ _ => 0⟩
    2 3 5 4 5 1 "collection not found" (by decide) (by decide) (by decide) (by decide)
    rfl).2.2.2.2.2.2.2

/-- C8 (counterexample): with one worker and a store without the collection,
the caller sleeps and starts the worker, and the worker prints its start line,
before the failed opening is noticed. -/
theorem collection_error_not_before_dispatch :
    (writeSomeBatchesParallel id
      ⟨fun _ => ⟨some "collection not found", fun _ => none, fun _ => 0⟩, fun _ _ => 0⟩
      1 1 5 0 1).main =
      [Event.sleep 5000000, Event.wgAdd, Event.go 1, Event.wgWait,
        Event.print (Line.totalWritten 1), Event.print Line.errorInWriteSomeBatches] ∧
    (writeSomeBatchesParallel id
      ⟨fun _ => ⟨some "collection not found", fun _ => none, fun _ => 0⟩, fun _ _ => 0⟩
      1 1 5 0 1).routines =
      [([Event.print Line.startingGoRoutine, Event.collection,
          Event.print (Line.couldNotOpen "collection not found"),
          Event.print (Line.writeSomeBatchesError "collection not found"),
          Event.setHaveError, Event.lock, Event.print (Line.goRoutineDone 1), Event.unlock,
          Event.wgDone], Result.error "collection not found")] := by
  decide

/-- C9 (as amended): the failure flag is not protected by the mutex.  In every
run, every write a goroutine makes to `haveError` happens while that goroutine
does not hold the mutex; a goroutine whose worker returned an error makes the
write right after printing the error and right before it acquires the mutex
for its "done" line, and nothing before that point writes the flag or leaves
the mutex held. -/
theorem flag_write_outside_mutex (H : String → String) (env : Env)
    (parallelism number startDelay payloadSize batchSize : Int) :
    ∀ t ∈ (writeSomeBatchesParallel H env parallelism number startDelay payloadSize
        batchSize).routines,
      flagWritesUnlocked false t.1 = true ∧
      ∀ e : String, t.2 = Result.error e →
        ∃ (pre : List Event) (i : Int),
          t.1 = pre ++ [Event.print (Line.writeSomeBatchesError e), Event.setHaveError,
            Event.lock, Event.print (Line.goRoutineDone i), Event.unlock, Event.wgDone] ∧
          Event.setHaveError ∉ pre ∧ heldAfter false pre = false := by
  intro t ht
  rw [parallel_routines] at ht
  obtain ⟨m, _, rfl⟩ := (mem_routinesFrom _ _ _ _ _ _ _ _).mp ht
  obtain ⟨hno, hheld⟩ := writeSomeBatches_no_flag_write H (env.store (1 + m)) number (1 + m)
    payloadSize batchSize (env.rand (1 + m))
  have hstart : Event.setHaveError ∉ Event.print Line.startingGoRoutine ::
      (writeSomeBatches H (env.store (1 + m)) number (1 + m) payloadSize batchSize
        (env.rand (1 + m))).events := by
    simp only [List.mem_cons, not_or]
    exact ⟨by simp, hno⟩
  unfold goRoutine
  simp only
  split
  · refine ⟨?_, fun e he => by simp at he⟩
    apply flagWritesUnlocked_of_not_mem
    dsimp only
    rw [List.mem_append, not_or]
    exact ⟨hstart, by simp⟩
  · rename_i e he
    have hpre : heldAfter false (Event.print Line.startingGoRoutine ::
        (writeSomeBatches H (env.store (1 + m)) number (1 + m) payloadSize batchSize
          (env.rand (1 + m))).events) = false := hheld e he
    refine ⟨?_, fun e1 he1 => ?_⟩
    · dsimp only
      rw [flagWritesUnlocked_append, flagWritesUnlocked_of_not_mem _ _ hstart, hpre]
      simp [flagWritesUnlocked, lockStep]
    · have : e1 = e := by simpa using he1.symm
      subst this
      exact ⟨_, 1 + m, rfl, hstart, hpre⟩
  · refine ⟨?_, fun e he => by simp at he⟩
    apply flagWritesUnlocked_of_not_mem
    dsimp only
    rw [List.mem_append, not_or]
    exact ⟨hstart, by simp⟩

theorem flag_write_outside_mutex_witness :
    flagWritesUnlocked false
      [Event.print Line.startingGoRoutine, Event.collection,
        Event.print (Line.couldNotOpen "collection not found"),
        Event.print (Line.writeSomeBatchesError "collection not found"),
        Event.setHaveError, Event.lock, Event.print (Line.goRoutineDone 1), Event.unlock,
        Event.wgDone] = true :=
  (flag_write_outside_mutex id
    ⟨fun _ => ⟨some "collection not found", fun _ => none, fun _ => 0⟩, fun _ _ => 0⟩
    1 1 5 0 1
    ([Event.print Line.startingGoRoutine, Event.collection,
        Event.print (Line.couldNotOpen "collection not found"),
        Event.print (Line.writeSomeBatchesError "collection not found"),
        Event.setHaveError, Event.lock, Event.print (Line.goRoutineDone 1), Event.unlock,
        Event.wgDone], Result.error "collection not found") (by decide)).1

/-- C9 (counterexample): with one worker and a store without the collection,
the worker's goroutine writes the failure flag before it has locked the mutex:
not every write of the flag is made under the mutex. -/
theorem flag_write_not_under_mutex :
    (writeSomeBatchesParallel id
      ⟨fun _ => ⟨some "collection not found", fun _ => none, fun _ => 0⟩, fun _ _ => 0⟩
      1 1 5 0 1).routines.map (fun t => (t.1, flagWritesLocked false t.1)) =
      [([Event.print Line.startingGoRoutine, Event.collection,
          Event.print (Line.couldNotOpen "collection not found"),
          Event.print (Line.writeSomeBatchesError "collection not found"),
          Event.setHaveError, Event.lock, Event.print (Line.goRoutineDone 1), Event.unlock,
          Event.wgDone], false)] := by
  decide

/-! ## Topping a collection up -/

theorem fillDocuments_length {α : Type} (gen : Int → Nat → α) (d : Int) (hd0 : 0 ≤ d)
    (hd1 : d < 2 ^ 63) (n : Nat) :
    ∀ (sentSize : Int) (documents : List α) (calls : Nat),
      0 ≤ sentSize → sentSize ≤ 100000000 → (sentSize = 0 ∨ d ≤ 100000000) →
      (((fillDocuments gen d n sentSize documents calls).1.length : Nat) : Int) =
        documents.length +
          (if d = 0 then (n : Int) else min (n : Int) ((100000000 - sentSize) / d + 1)) := by
  induction n with
  | zero =>
    intro s docs calls h0 h1 h2
    simp only [fillDocuments]
    split
    · simp
    · have : 0 ≤ (100000000 - s) / d := Int.ediv_nonneg (by omega) hd0
      rw [min_eq_left (by push_cast; omega)]
      simp
  | succ n ih =>
    intro s docs calls h0 h1 h2
    have hadd : add64 s d = s + d := by
      unfold add64
      exact wrap64_of_fits (by omega) (by rcases h2 with h | h <;> omega)
    simp only [fillDocuments, hadd]
    by_cases hbig : s + d > 100000000
    · rw [if_pos hbig]
      have hdpos : d ≠ 0 := by omega
      have hq : (100000000 - s) / d = 0 := Int.ediv_eq_zero_of_lt (by omega) (by omega)
      rw [if_neg hdpos, hq]
      simp only [List.length_append, List.length_singleton]
      push_cast
      rw [min_eq_right (by omega)]
    · rw [if_neg hbig]
      rw [ih (s + d) _ _ (by omega) (by omega) (by
        by_cases hd : d ≤ 100000000
        · exact Or.inr hd
        · exact absurd (show s + d > 100000000 by omega) hbig)]
      simp only [List.length_append, List.length_singleton]
      push_cast
      by_cases hdz : d = 0
      · simp only [hdz, if_true]
        ring
      · simp only [hdz, if_false]
        have hq : (100000000 - s) / d = (100000000 - (s + d)) / d + 1 := by
          have : 100000000 - s = (100000000 - (s + d)) + 1 * d := by ring
          rw [this, Int.add_mul_ediv_right _ _ hdz]
        rw [hq]
        rcases le_total (n : Int) ((100000000 - (s + d)) / d + 1) with hle | hle
        · rw [min_eq_left hle, min_eq_left (by omega)]
          ring
        · rw [min_eq_right hle, min_eq_right (by omega)]
          ring

theorem toppedUp_facts {α : Type} (d : Int) (hd : 0 ≤ d) (bs : List (List α)) :
    ∀ remaining : Int, toppedUp d remaining bs = true →
      (∀ b ∈ bs, b ≠ []) ∧ (((bs.map List.length).sum : Nat) : Int) = max 0 remaining := by
  induction bs with
  | nil =>
    intro R h
    simp only [toppedUp, decide_eq_true_eq] at h
    refine ⟨by simp, ?_⟩
    rw [max_eq_left h]
    simp
  | cons b bs ih =>
    intro R h
    simp only [toppedUp, Bool.and_eq_true, decide_eq_true_eq] at h
    obtain ⟨⟨hR, hb⟩, hrest⟩ := h
    obtain ⟨h1, h2⟩ := ih _ hrest
    have hq : 0 ≤ 100000000 / d := Int.ediv_nonneg (by decide) hd
    have hlen : 1 ≤ (b.length : Int) ∧ (b.length : Int) ≤ R := by
      rw [hb]
      split
      · omega
      · rcases le_total R (100000000 / d + 1) with hle | hle
        · rw [min_eq_left hle]; omega
        · rw [min_eq_right hle]; omega
    refine ⟨?_, ?_⟩
    · intro x hx
      rcases List.mem_cons.mp hx with hx | hx
      · subst hx
        intro hnil
        rw [hnil] at hlen
        simp at hlen
      · exact h1 x hx
    · simp only [List.map_cons, List.sum_cons]
      rw [Nat.cast_add, h2, max_eq_right (by omega), max_eq_right (by omega)]
      ring

theorem topUpLoop_spec {α : Type} (c : Collection α) (h : ColHandle) (d : Int)
    (hd0 : 0 ≤ d) (hd1 : d < 2 ^ 63) (hE0 : 0 < c.expectedCount)
    (hE1 : c.expectedCount < 2 ^ 63) (hall : ∀ k : Nat, h.createErr k = none) (fuel : Nat) :
    ∀ (currentCount : Int) (calls : Nat) (sent : List (List α)),
      0 ≤ currentCount → currentCount < 2 ^ 63 →
      (c.expectedCount - currentCount).toNat ≤ fuel →
      ∃ bs : List (List α),
        topUpLoop c h d fuel currentCount calls sent = some ⟨1, sent ++ bs, Result.ok⟩ ∧
        toppedUp d (c.expectedCount - currentCount) bs = true := by
  induction fuel with
  | zero =>
    intro cur calls sent h0 h1 hf
    have hsub : sub64 c.expectedCount cur = c.expectedCount - cur := by
      unfold sub64
      exact wrap64_of_fits (by omega) (by omega)
    refine ⟨[], ?_, ?_⟩
    · simp only [topUpLoop, hsub]
      rw [if_neg (by omega)]
      simp
    · simp only [toppedUp, decide_eq_true_eq]
      omega
  | succ fuel ih =>
    intro cur calls sent h0 h1 hf
    have hsub : sub64 c.expectedCount cur = c.expectedCount - cur := by
      unfold sub64
      exact wrap64_of_fits (by omega) (by omega)
    by_cases hR : c.expectedCount - cur > 0
    · have hlen := fillDocuments_length c.documentGenerator d hd0 hd1
        (c.expectedCount - cur).toNat 0 [] calls (le_refl 0) (by decide) (Or.inl rfl)
      simp only [List.length_nil, Nat.cast_zero, zero_add, sub_zero] at hlen
      rw [Int.toNat_of_nonneg (by omega)] at hlen
      have hq : 0 ≤ 100000000 / d := Int.ediv_nonneg (by decide) hd0
      generalize hfilled : fillDocuments c.documentGenerator d (c.expectedCount - cur).toNat 0 []
        calls = filled at hlen
      have hL : 1 ≤ (filled.1.length : Int) ∧ (filled.1.length : Int) ≤ c.expectedCount - cur := by
        rw [hlen]
        split
        · omega
        · rcases le_total (c.expectedCount - cur) (100000000 / d + 1) with hle | hle
          · rw [min_eq_left hle]; omega
          · rw [min_eq_right hle]; omega
      have hadd : add64 cur filled.1.length = cur + filled.1.length := by
        unfold add64
        exact wrap64_of_fits (by omega) (by omega)
      obtain ⟨bs, hbs, htop⟩ := ih (cur + filled.1.length) filled.2 (sent ++ [filled.1])
        (by omega) (by omega) (by omega)
      refine ⟨filled.1 :: bs, ?_, ?_⟩
      · simp only [topUpLoop, hsub]
        rw [if_pos hR]
        simp only [hfilled, hall, hadd, hbs]
        simp
      · simp only [toppedUp, Bool.and_eq_true, decide_eq_true_eq]
        refine ⟨⟨hR, hlen⟩, ?_⟩
        rw [show c.expectedCount - cur - (filled.1.length : Int) =
          c.expectedCount - (cur + filled.1.length) by ring]
        exact htop
    · refine ⟨[], ?_, ?_⟩
      · simp only [topUpLoop, hsub]
        rw [if_neg hR]
        simp
      · simp only [toppedUp, decide_eq_true_eq]
        omega

/-- C10: `Collection.CreateDocuments` tops the collection up to the expected
count.  When `expectedCount` or `expectedSize` is 0 it returns nil without any
call to the store.  When both are positive, the handle is not nil, `Count`
answers `c0 >= 0` and every `CreateDocuments` call of the store succeeds, the
loop ends (any bound of at least `expectedCount - c0` iterations is enough)
and nil is returned; every submitted batch is non-empty and holds
`min(remaining, floor(100000000 / d) + 1)` documents, `d` being
`expectedSize / expectedCount`, or all remaining documents when `d = 0`; and
the batches together hold `max(0, expectedCount - c0)` documents. -/
theorem create_documents_tops_up {α : Type} (c : Collection α) (h : ColHandle) (c0 : Int) :
    (c.expectedCount = 0 ∨ c.expectedSize = 0 →
      ∀ fuel : Nat, c.CreateDocuments fuel = some ⟨0, [], Result.ok⟩) ∧
    (0 < c.expectedCount → c.expectedCount < 2 ^ 63 →
      0 < c.expectedSize → c.expectedSize < 2 ^ 63 →
      c.colHandle = some h → h.count = Except.ok c0 → 0 ≤ c0 → c0 < 2 ^ 63 →
      (∀ k : Nat, h.createErr k = none) →
      ∀ fuel : Nat, (c.expectedCount - c0).toNat ≤ fuel →
        ∃ bs : List (List α),
          c.CreateDocuments fuel = some ⟨1, bs, Result.ok⟩ ∧
          toppedUp (c.expectedSize / c.expectedCount) (c.expectedCount - c0) bs = true ∧
          (∀ b ∈ bs, b ≠ []) ∧
          (((bs.map List.length).sum : Nat) : Int) = max 0 (c.expectedCount - c0)) := by
  constructor
  · intro hz fuel
    unfold Collection.CreateDocuments
    rw [if_pos hz]
  · intro hE0 hE1 hS0 hS1 hh hc hc0 hc1 hall fuel hfuel
    have hd0 : 0 ≤ c.expectedSize / c.expectedCount := Int.ediv_nonneg (by omega) (by omega)
    have hd1 : c.expectedSize / c.expectedCount ≤ c.expectedSize :=
      Int.ediv_le_self _ (by omega)
    have hdiv : wrap64 (c.expectedSize.tdiv c.expectedCount) =
        c.expectedSize / c.expectedCount := by
      rw [Int.tdiv_eq_ediv (by omega) (by omega)]
      exact wrap64_of_fits (by omega) (by omega)
    obtain ⟨bs, hbs, htop⟩ := topUpLoop_spec c h (c.expectedSize / c.expectedCount) hd0
      (by omega) hE0 hE1 hall fuel c0 0 [] hc0 hc1 hfuel
    obtain ⟨hne, hsum⟩ := toppedUp_facts _ hd0 bs _ htop
    refine ⟨bs, ?_, htop, hne, hsum⟩
    unfold Collection.CreateDocuments
    rw [if_neg (by omega)]
    simp only [hh, hc, hdiv, hbs, List.nil_append]

theorem create_documents_tops_up_witness :
    (∃ bs : List (List Nat),
      (⟨200000000, 5, fun _ k => k, some ⟨"c", Except.ok 2, fun _ => none⟩⟩ :
        Collection Nat).CreateDocuments 3 = some ⟨1, bs, Result.ok⟩ ∧
      toppedUp (200000000 / 5) (5 - 2) bs = true ∧
      (∀ b ∈ bs, b ≠ []) ∧
      (((bs.map List.length).sum : Nat) : Int) = max 0 (5 - 2)) ∧
    (⟨0, 7, fun _ k => k, none⟩ : Collection Nat).CreateDocuments 0 =
      some ⟨0, [], Result.ok⟩ :=
  ⟨(create_documents_tops_up
      (⟨200000000, 5, fun _ k => k, some ⟨"c", Except.ok 2, fun _ => none⟩⟩ : Collection Nat)
      ⟨"c", Except.ok 2, fun _ => none⟩ 2).2 (by decide) (by decide) (by decide) (by decide)
      rfl rfl (by decide) (by decide) (fun _ => rfl) 3 (by decide),
    (create_documents_tops_up (⟨0, 7, fun _ k => k, none⟩ : Collection Nat)
      ⟨"c", Except.ok 2, fun _ => none⟩ 2).1 (Or.inr rfl) 0⟩

end CollectionMaker
